import Mathlib

/-!
Shallow embedding of `libsolidity/analysis/ContractLevelChecker.cpp` (the
contract-level semantic checker of the Solidity front end) and proofs about it.

The checker's own logic (the six sub-checks driven by
`ContractLevelChecker::check`) is translated line by line from the C++ source.
Auxiliary entities that live outside that file (the AST node classes,
`FunctionType` signature comparison, `SourceLocation`, the error reporter) are
modelled from the specification's data model: signatures are ordered lists of
resolved type identifiers compared structurally, source locations are ranges
within a named source unit, and the reporter is a list of collected
diagnostics.

One representation note: the C++ code buckets declarations in `std::map`
keyed by name, which iterates keys in lexicographic order.  The association
lists used here preserve first-insertion order of keys instead.  This permutes
diagnostics and unimplemented-function entries across *distinct* names only;
every property proved below is per-name or order-free, so the difference is
not observable in any statement in this file.
-/

/-- Modelled from the spec: a resolved parameter/return type.  Only structural
equality of resolved types matters to this checker, so types are opaque
identifiers. -/
abbrev Ty := Nat

/-- Modelled from the spec: declaration visibility
(`Declaration::Visibility`). -/
inductive Visibility where
  | Default
  | Private
  | Internal
  | Public
  | External
  deriving DecidableEq, Repr

/-- Modelled from the spec: state mutability of a callable
(`StateMutability`). -/
inductive StateMutability where
  | Pure
  | View
  | NonPayable
  | Payable
  deriving DecidableEq, Repr

/-- Modelled from the spec: `stateMutabilityToString`, used to name the
offending mutability inside diagnostic messages. -/
def stateMutabilityToString : StateMutability → String
  | .Pure => "pure"
  | .View => "view"
  | .NonPayable => "nonpayable"
  | .Payable => "payable"

/-- Modelled from the spec: a source range inside one source unit
(`langutil::SourceLocation`). -/
structure SourceLocation where
  srcUnit : Nat
  first : Int
  last : Int
  deriving DecidableEq, Repr

/-- Modelled from the spec: `SourceLocation::contains` — one range falls
within another when both are in the same source unit and the inner bounds lie
inside the outer bounds. -/
def SourceLocation.contains (outer inner : SourceLocation) : Bool :=
  outer.srcUnit == inner.srcUnit && outer.first ≤ inner.first && inner.last ≤ outer.last

/-- Modelled from the spec: a modifier-style invocation appearing on a
constructor (`ModifierInvocation`); its name has been resolved upstream.
`referencedContract` is `some` exactly when the resolved declaration is a
contract (the `dynamic_cast` in the C++ succeeds). -/
structure ModifierInvocation where
  nodeId : Nat
  referencedContract : Option Nat
  hasArguments : Bool
  location : SourceLocation
  deriving DecidableEq, Repr

/-- Modelled from the spec: an entry of a contract's inheritance-specifier
list (`InheritanceSpecifier`), already resolved to the base contract it
names.  `argumentCount` is `none` when no argument list is present at all and
`some n` for a list of `n` arguments. -/
structure InheritanceSpecifier where
  nodeId : Nat
  baseId : Nat
  argumentCount : Option Nat
  location : SourceLocation
  deriving DecidableEq, Repr

/-- Modelled from the spec: a function declaration (`FunctionDefinition`),
with its resolved signature.  `parameterTypes`/`returnTypes` play the role of
the `FunctionType` obtained through `asCallableFunction(false)`: signature
comparison (`hasEqualParameterTypes` / `hasEqualReturnTypes`) is structural,
order- and arity-sensitive list equality. -/
structure FunctionDefinition where
  fnId : Nat
  name : String
  isCtor : Bool
  parameterTypes : List Ty
  returnTypes : List Ty
  visibility : Visibility
  stateMutability : StateMutability
  isImplemented : Bool
  location : SourceLocation
  returnParameterListLocation : SourceLocation
  modifierInvocations : List ModifierInvocation
  deriving DecidableEq, Repr

/-- Modelled from the spec: `FunctionDefinition::isFallback` — the fallback is
the unnamed non-constructor function. -/
def FunctionDefinition.isFallback (f : FunctionDefinition) : Bool :=
  f.name == "" && !f.isCtor

/-- Modelled from the spec: an event declaration (`EventDefinition`) with its
resolved parameter types. -/
structure EventDefinition where
  name : String
  parameterTypes : List Ty
  location : SourceLocation
  deriving DecidableEq, Repr

/-- Modelled from the spec: a modifier declaration (`ModifierDefinition`);
`ModifierType` equality reduces to structural parameter-type equality. -/
structure ModifierDefinition where
  name : String
  parameterTypes : List Ty
  location : SourceLocation
  deriving DecidableEq, Repr

/-- Modelled from the spec: a contract declaration (`ContractDefinition`) with
its own members and resolved inheritance specifiers.  The linearization is an
upstream annotation and is passed to the checks separately. -/
structure ContractDefinition where
  contractId : Nat
  definedFunctions : List FunctionDefinition
  events : List EventDefinition
  functionModifiers : List ModifierDefinition
  baseContracts : List InheritanceSpecifier
  location : SourceLocation
  deriving DecidableEq, Repr

/-- Modelled from the spec: `ContractDefinition::constructor` — the contract's
own constructor, the first defined function flagged as constructor. -/
def ContractDefinition.constructor (c : ContractDefinition) : Option FunctionDefinition :=
  c.definedFunctions.find? (·.isCtor)

/-- Modelled from the spec: resolving a contract reference (the
`referencedDeclaration` pointer) against the set of known contracts. -/
def lookupContract (env : List ContractDefinition) (i : Nat) : Option ContractDefinition :=
  env.find? (fun c => c.contractId == i)

/-- Modelled from the spec: the two diagnostic classes the reporter offers. -/
inductive ErrorKind where
  | DeclarationError
  | TypeError
  deriving DecidableEq, Repr

/-- Modelled from the spec: one entry of a `SecondarySourceLocation` — a human
label plus a source range. -/
structure SecondaryLoc where
  label : String
  loc : SourceLocation
  deriving DecidableEq, Repr

/-- Modelled from the spec: one collected diagnostic of the error reporter. -/
structure Diagnostic where
  kind : ErrorKind
  primary : SourceLocation
  secondary : List SecondaryLoc
  message : String
  deriving DecidableEq, Repr

/-- Modelled from the spec: `SecondarySourceLocation::limitSize` — an oversize
secondary-location list is truncated to the first 32 entries and the message
gains a note, rather than being dropped or crashing the reporter. -/
def limitSize (infos : List SecondaryLoc) (message : String) : List SecondaryLoc × String :=
  if 32 < infos.length then
    (infos.take 32,
     message ++
       (" Truncated from " ++ toString infos.length ++ " to the first 32 occurrences."))
  else
    (infos, message)

/-- The AST node registered as a base-constructor argument supply site: its
node id together with its source range (the two observable attributes of the
stored `ASTNode const*`). -/
structure ArgNode where
  nodeId : Nat
  location : SourceLocation
  deriving DecidableEq, Repr

/-- The observable state the checker threads: the collected diagnostics and
the three annotation slots written back onto the AST (`superFunction`
back-references keyed by function id, the contract's `unimplementedFunctions`
list, and the contract's `baseConstructorArguments` map keyed by base
constructor id). -/
structure CheckState where
  errors : List Diagnostic
  superFunction : List (Nat × Nat)
  unimplementedFunctions : List FunctionDefinition
  baseConstructorArguments : List (Nat × ArgNode)
  deriving DecidableEq, Repr

/-! ### Name-keyed buckets

The C++ buckets declarations in `std::map<string, vector<T>>`.  `bucketGet`
is `operator[]` read access (absent keys read as the empty bucket),
`bucketSet` replaces the bucket stored under a key (inserting the key when
absent), and `mapInsert` is `operator[]` followed by `push_back`. -/

/-- Bucket lookup: the list stored under a name, empty when absent. -/
def bucketGet {α : Type} (m : List (String × List α)) (k : String) : List α :=
  match m.find? (fun p => p.1 == k) with
  | some p => p.2
  | none => []

/-- Replace the bucket stored under a name, inserting the key when absent. -/
def bucketSet {α : Type} (k : String) (v : List α) :
    List (String × List α) → List (String × List α)
  | [] => [(k, v)]
  | (k', vs) :: rest =>
    if k = k' then (k, v) :: rest else (k', vs) :: bucketSet k v rest

/-- Append one element to the bucket of a name (`m[k].push_back(v)`). -/
def mapInsert {α : Type} (k : String) (v : α) (m : List (String × List α)) :
    List (String × List α) :=
  bucketSet k (bucketGet m k ++ [v]) m

/-! ### `checkDuplicateFunctions` / `checkDuplicateEvents` (source lines 48-128) -/

/-- The diagnostic for a repeated constructor or fallback declaration inside
one contract (source lines 58-75): anchored at the later declaration,
referencing the retained earlier one. -/
def duplicateSpecialDiag (message : String) (second earlier : FunctionDefinition) : Diagnostic :=
  { kind := .DeclarationError
    primary := second.location
    secondary := [⟨"Another declaration is here:", earlier.location⟩]
    message := message }

/-- The first loop of `checkDuplicateFunctions` (source lines 55-80): dispatch
each defined function to the constructor slot, the fallback slot, or its name
bucket, reporting a declaration error whenever a slot is already taken. -/
def scanCtorFallback :
    List FunctionDefinition → Option FunctionDefinition → Option FunctionDefinition →
    List (String × List FunctionDefinition) → List Diagnostic →
    List (String × List FunctionDefinition) × List Diagnostic
  | [], _, _, buckets, errs => (buckets, errs)
  | f :: rest, ctorSeen, fbSeen, buckets, errs =>
    if f.isCtor then
      let errs' :=
        match ctorSeen with
        | some c => errs ++ [duplicateSpecialDiag "More than one constructor defined." f c]
        | none => errs
      scanCtorFallback rest (some f) fbSeen buckets errs'
    else if f.isFallback then
      let errs' :=
        match fbSeen with
        | some b => errs ++ [duplicateSpecialDiag "Only one fallback function is allowed." f b]
        | none => errs
      scanCtorFallback rest ctorSeen (some f) buckets errs'
    else
      scanCtorFallback rest ctorSeen fbSeen (mapInsert f.name f buckets) errs

/-- The inner `j` loop of `findDuplicateDefinitions` (source lines 107-114):
walk the overloads after position `i`, collecting a secondary location and the
index of every declaration whose parameter types equal those of the anchor. -/
def dupCollect {α : Type} (ptypes : α → List Ty) (locOf : α → SourceLocation) :
    List α → Nat → List Ty → List SecondaryLoc × List Nat
  | [], _, _ => ([], [])
  | g :: rest, j, pt =>
    let tail := dupCollect ptypes locOf rest (j + 1) pt
    if decide (ptypes g = pt) then
      (⟨"Other declaration is here:", locOf g⟩ :: tail.1, j :: tail.2)
    else
      tail

/-- The outer `i` loop of `findDuplicateDefinitions` (source lines 103-126).
The loop condition `i < overloads.size() && !reported.count(i)` stops the
whole scan as soon as the current index was already attached to an earlier
diagnostic; a diagnostic is emitted only when at least one collision was
collected, with the secondary list size-limited. -/
def dupScan {α : Type} (ptypes : α → List Ty) (locOf : α → SourceLocation) (message : String) :
    List α → Nat → List Nat → List Diagnostic
  | [], _, _ => []
  | cur :: rest, i, reported =>
    if i ∈ reported then []
    else
      let collected := dupCollect ptypes locOf rest (i + 1) (ptypes cur)
      let tail := dupScan ptypes locOf message rest (i + 1) (reported ++ collected.2)
      if 0 < collected.1.length then
        let lim := limitSize collected.1 message
        { kind := .DeclarationError, primary := locOf cur, secondary := lim.1,
          message := lim.2 } :: tail
      else
        tail

/-- `findDuplicateDefinitions` (source lines 96-128): run the duplicate scan
over every name bucket. -/
def findDuplicateDefinitions {α : Type} (ptypes : α → List Ty) (locOf : α → SourceLocation)
    (message : String) (definitions : List (String × List α)) : List Diagnostic :=
  (definitions.map (fun b => dupScan ptypes locOf message b.2 0 [])).flatten

/-- `checkDuplicateFunctions` (source lines 48-83). -/
def checkDuplicateFunctions (c : ContractDefinition) (st : CheckState) : CheckState :=
  let scanned := scanCtorFallback c.definedFunctions none none [] []
  { st with
    errors := st.errors ++ scanned.2 ++
      findDuplicateDefinitions (·.parameterTypes) (·.location)
        "Function with same name and arguments defined twice." scanned.1 }

/-- `checkDuplicateEvents` (source lines 85-94). -/
def checkDuplicateEvents (c : ContractDefinition) (st : CheckState) : CheckState :=
  let buckets := c.events.foldl (fun m e => mapInsert e.name e m) []
  { st with
    errors := st.errors ++
      findDuplicateDefinitions (·.parameterTypes) (·.location)
        "Event with same name and arguments defined twice." buckets }

/-! ### `checkIllegalOverrides` / `checkFunctionOverride` (source lines 130-209) -/

/-- Lookup in the `superFunction` annotation table (keyed by function id). -/
def lookupSuper (m : List (Nat × Nat)) (k : Nat) : Option Nat :=
  (m.find? (fun p => p.1 == k)).map (·.2)

/-- `overrideError` (source lines 202-209): a type error at the overriding
function, referencing the overridden one. -/
def overrideError (f g : FunctionDefinition) (message : String) : Diagnostic :=
  { kind := .TypeError
    primary := f.location
    secondary := [⟨"Overridden function is here:", g.location⟩]
    message := message }

/-- `checkFunctionOverride` (source lines 167-200): everything is compared
only when the parameter types are structurally equal; then return types,
visibility (any change except External → Public is an error) and mutability
are checked, and the nearest super function is recorded once. -/
def checkFunctionOverride (f g : FunctionDefinition) (superMap : List (Nat × Nat)) :
    List Diagnostic × List (Nat × Nat) :=
  if ¬ (f.parameterTypes = g.parameterTypes) then
    ([], superMap)
  else
    let retErrs :=
      if ¬ (f.returnTypes = g.returnTypes) then
        [overrideError f g "Overriding function return types differ."]
      else []
    let superMap' :=
      if (lookupSuper superMap f.fnId).isNone then superMap ++ [(f.fnId, g.fnId)]
      else superMap
    let visErrs :=
      if f.visibility ≠ g.visibility then
        if g.visibility = Visibility.External ∧ f.visibility = Visibility.Public then []
        else [overrideError f g "Overriding function visibility differs."]
      else []
    let mutErrs :=
      if f.stateMutability ≠ g.stateMutability then
        [overrideError f g
          ("Overriding function changes state mutability from \"" ++
            stateMutabilityToString g.stateMutability ++ "\" to \"" ++
            stateMutabilityToString f.stateMutability ++ "\".")]
      else []
    (retErrs ++ visErrs ++ mutErrs, superMap')

/-- The inner loop of source line 148-149: pair the current (more base)
function against every same-named function already seen (closer to the most
derived end), threading the `superFunction` table. -/
def foldOverrides :
    List FunctionDefinition → FunctionDefinition → List (Nat × Nat) →
    List Diagnostic × List (Nat × Nat)
  | [], _, m => ([], m)
  | g :: rest, f, m =>
    let head := checkFunctionOverride g f m
    let tail := foldOverrides rest f head.2
    (head.1 ++ tail.1, tail.2)

/-- Lookup in the seen-modifiers table of `checkIllegalOverrides`. -/
def modLookup (m : List (String × ModifierDefinition)) (k : String) :
    Option ModifierDefinition :=
  (m.find? (fun p => p.1 == k)).map (·.2)

/-- The walking state of `checkIllegalOverrides`: the two accumulating
name-keyed tables of already seen functions and modifiers, the threaded
`superFunction` table and the diagnostics collected so far. -/
structure OverrideCtx where
  functions : List (String × List FunctionDefinition)
  modifiers : List (String × ModifierDefinition)
  superMap : List (Nat × Nat)
  errs : List Diagnostic

/-- Processing of one function of the current contract (source lines 140-152):
constructors are skipped; a same-named seen modifier is reported; the function
is paired against every seen overload of its name and then appended to its
bucket. -/
def overrideFnStep (ctx : OverrideCtx) (f : FunctionDefinition) : OverrideCtx :=
  if f.isCtor then ctx
  else
    let modErrs :=
      match modLookup ctx.modifiers f.name with
      | some md =>
        [{ kind := .TypeError, primary := md.location, secondary := [],
           message := "Override changes function to modifier." : Diagnostic }]
      | none => []
    let paired := foldOverrides (bucketGet ctx.functions f.name) f ctx.superMap
    { ctx with
      functions := mapInsert f.name f ctx.functions
      superMap := paired.2
      errs := ctx.errs ++ modErrs ++ paired.1 }

/-- Processing of one modifier of the current contract (source lines
153-163): the first seen modifier of a name becomes the canonical one; a
later one with a different computed type is reported against the canonical
location; a name also used by a seen function is a modifier/function clash. -/
def overrideModStep (ctx : OverrideCtx) (md : ModifierDefinition) : OverrideCtx :=
  let canonical :=
    match modLookup ctx.modifiers md.name with
    | some existing => existing
    | none => md
  let modifiers' :=
    match modLookup ctx.modifiers md.name with
    | some _ => ctx.modifiers
    | none => ctx.modifiers ++ [(md.name, md)]
  let sigErrs :=
    match modLookup ctx.modifiers md.name with
    | some existing =>
      if ¬ (existing.parameterTypes = md.parameterTypes) then
        [{ kind := .TypeError, primary := existing.location, secondary := [],
           message := "Override changes modifier signature." : Diagnostic }]
      else []
    | none => []
  let fnClashErrs :=
    if (bucketGet ctx.functions md.name).isEmpty then []
    else
      [{ kind := .TypeError, primary := canonical.location, secondary := [],
         message := "Override changes modifier to function." : Diagnostic }]
  { ctx with
    modifiers := modifiers'
    errs := ctx.errs ++ sigErrs ++ fnClashErrs }

/-- One contract of the derived-to-base walk (source lines 138-164): all its
defined functions, then all its modifiers. -/
def overrideContractStep (ctx : OverrideCtx) (c : ContractDefinition) : OverrideCtx :=
  let afterFns := c.definedFunctions.foldl overrideFnStep ctx
  c.functionModifiers.foldl overrideModStep afterFns

/-- The derived-to-base walk of `checkIllegalOverrides` over the linearized
base contracts, starting from empty seen-tables. -/
def overrideWalk (lin : List ContractDefinition) (superMap : List (Nat × Nat)) : OverrideCtx :=
  lin.foldl overrideContractStep ⟨[], [], superMap, []⟩

/-- `checkIllegalOverrides` (source lines 130-165). -/
def checkIllegalOverrides (lin : List ContractDefinition) (st : CheckState) : CheckState :=
  let ctx := overrideWalk lin st.superFunction
  { st with errors := st.errors ++ ctx.errs, superFunction := ctx.superMap }

/-! ### `checkAbstractFunctions` (source lines 211-252) -/

/-- One overload-equivalence-class entry of `checkAbstractFunctions`: the
stored function (standing for the `FunctionTypePointer` and its declaration)
together with the implemented flag (`FunTypeAndFlag`). -/
structure FunFlag where
  fn : FunctionDefinition
  implemented : Bool
  deriving DecidableEq, Repr

/-- The per-function bucket update of `checkAbstractFunctions` (source lines
225-239): find the first entry with equal parameter types; absent ⇒ append a
new entry carrying the function's implementation flag; present and already
implemented ⇒ report when the new function has no body; present and not
implemented ⇒ flip the flag when the new function has a body. -/
def abstractUpdate : List FunFlag → FunctionDefinition → List FunFlag × List Diagnostic
  | [], f => ([⟨f, f.isImplemented⟩], [])
  | e :: rest, f =>
    if f.parameterTypes = e.fn.parameterTypes then
      if e.implemented then
        (e :: rest,
         if f.isImplemented then []
         else
           [{ kind := .TypeError, primary := f.location, secondary := [],
              message := "Redeclaring an already implemented function as abstract" }])
      else if f.isImplemented then
        (⟨e.fn, true⟩ :: rest, [])
      else
        (e :: rest, [])
    else
      let tail := abstractUpdate rest f
      (e :: tail.1, tail.2)

/-- The base-to-derived walk of `checkAbstractFunctions` over all defined
functions of the reversed linearization, skipping constructors (source lines
219-240). -/
def abstractWalk :
    List FunctionDefinition → List (String × List FunFlag) →
    List (String × List FunFlag) × List Diagnostic
  | [], buckets => (buckets, [])
  | f :: rest, buckets =>
    if f.isCtor then abstractWalk rest buckets
    else
      let upd := abstractUpdate (bucketGet buckets f.name) f
      let tail := abstractWalk rest (bucketSet f.name upd.1 buckets)
      (tail.1, upd.2 ++ tail.2)

/-- The function sequence `checkAbstractFunctions` walks: the defined
functions of every contract of the linearization, base first (the reversed
linearized list, source line 219). -/
def abstractFunctionList (lin : List ContractDefinition) : List FunctionDefinition :=
  (lin.reverse.map (·.definedFunctions)).flatten

/-- The final per-bucket loop of source lines 243-251: record the stored
declaration of the first entry whose flag is still false, then `break`. -/
def firstUnimplemented : List FunFlag → Option FunctionDefinition
  | [] => none
  | e :: rest => if e.implemented then firstUnimplemented rest else some e.fn

/-- `checkAbstractFunctions` (source lines 211-252). -/
def checkAbstractFunctions (lin : List ContractDefinition) (st : CheckState) : CheckState :=
  let walked := abstractWalk (abstractFunctionList lin) []
  { st with
    errors := st.errors ++ walked.2
    unimplementedFunctions :=
      st.unimplementedFunctions ++ walked.1.filterMap (fun b => firstUnimplemented b.2) }

/-! ### `checkBaseConstructorArguments` (source lines 255-342) -/

/-- Lookup in the per-contract `baseConstructorArguments` map (keyed by the
base constructor's declaration id). -/
def lookupArg (m : List (Nat × ArgNode)) (k : Nat) : Option ArgNode :=
  (m.find? (fun p => p.1 == k)).map (·.2)

/-- `annotateBaseConstructorArguments` (source lines 301-342): try to insert
the supply site into the contract's map; on a pre-existing entry the entry is
left untouched and a declaration error is placed — at the first-registered
node when either site's range lies within the current contract, at the
contract itself (naming both sites) otherwise. -/
def annotateBaseConstructorArguments (currentContract : ContractDefinition)
    (baseCtor : FunctionDefinition) (argumentNode : ArgNode) (st : CheckState) : CheckState :=
  match lookupArg st.baseConstructorArguments baseCtor.fnId with
  | none =>
    { st with
      baseConstructorArguments :=
        st.baseConstructorArguments ++ [(baseCtor.fnId, argumentNode)] }
  | some previousNode =>
    let placed :=
      if currentContract.location.contains previousNode.location ||
          currentContract.location.contains argumentNode.location then
        (previousNode.location,
         [(⟨"Second constructor call is here:", argumentNode.location⟩ : SecondaryLoc)])
      else
        (currentContract.location,
         [(⟨"First constructor call is here: ", argumentNode.location⟩ : SecondaryLoc),
          (⟨"Second constructor call is here: ", previousNode.location⟩ : SecondaryLoc)])
    { st with
      errors := st.errors ++
        [{ kind := .DeclarationError, primary := placed.1, secondary := placed.2,
           message := "Base constructor arguments given twice." }] }

/-- One modifier-style invocation on a hierarchy constructor (source lines
263-278): when it resolves to a base contract, either register its argument
node for that base's constructor (if the base has one and an argument list is
present) or report the ambiguous argument-less call. -/
def baseArgModifierStep (env : List ContractDefinition) (currentContract : ContractDefinition)
    (st : CheckState) (mi : ModifierInvocation) : CheckState :=
  match mi.referencedContract.bind (lookupContract env) with
  | some baseContract =>
    if mi.hasArguments then
      match baseContract.constructor with
      | some ctor =>
        annotateBaseConstructorArguments currentContract ctor ⟨mi.nodeId, mi.location⟩ st
      | none => st
    else
      { st with
        errors := st.errors ++
          [{ kind := .DeclarationError, primary := mi.location, secondary := [],
             message := "Modifier-style base constructor call without arguments." }] }
  | none => st

/-- Whether an inheritance specifier carries a non-empty argument list
(`base->arguments() && !base->arguments()->empty()`). -/
def InheritanceSpecifier.hasNonemptyArguments (b : InheritanceSpecifier) : Bool :=
  match b.argumentCount with
  | some n => n != 0
  | none => false

/-- One inheritance-specifier entry (source lines 280-289): register the
specifier node when the named base has a constructor and the specifier
supplies a non-empty argument list.  The C++ asserts that the specifier
resolves to a contract; an unresolvable reference is an internal invariant
violation and is modelled as a skip. -/
def baseArgSpecifierStep (env : List ContractDefinition) (currentContract : ContractDefinition)
    (st : CheckState) (b : InheritanceSpecifier) : CheckState :=
  match lookupContract env b.baseId with
  | some baseContract =>
    match baseContract.constructor with
    | some ctor =>
      if b.hasNonemptyArguments then
        annotateBaseConstructorArguments currentContract ctor ⟨b.nodeId, b.location⟩ st
      else st
    | none => st
  | none => st

/-- Pass 1 for one contract of the hierarchy (source lines 260-289): the
modifier-style invocations of its own constructor, then its
inheritance-specifier list. -/
def baseArgContractStep (env : List ContractDefinition) (currentContract : ContractDefinition)
    (st : CheckState) (c : ContractDefinition) : CheckState :=
  let afterMods :=
    match c.constructor with
    | some ctor => ctor.modifierInvocations.foldl (baseArgModifierStep env currentContract) st
    | none => st
  c.baseContracts.foldl (baseArgSpecifierStep env currentContract) afterMods

/-- Pass 2 for one contract of the hierarchy (source lines 294-298): a base
(other than the checked contract itself) whose constructor requires arguments
which no site supplies is recorded as unimplemented. -/
def baseArgCompletenessStep (currentContract : ContractDefinition) (st : CheckState)
    (c : ContractDefinition) : CheckState :=
  match c.constructor with
  | some ctor =>
    if c.contractId ≠ currentContract.contractId ∧ ctor.parameterTypes ≠ [] then
      if (lookupArg st.baseConstructorArguments ctor.fnId).isNone then
        { st with unimplementedFunctions := st.unimplementedFunctions ++ [ctor] }
      else st
    else st
  | none => st

/-- `checkBaseConstructorArguments` (source lines 255-299). -/
def checkBaseConstructorArguments (env : List ContractDefinition)
    (currentContract : ContractDefinition) (lin : List ContractDefinition)
    (st : CheckState) : CheckState :=
  let afterPassOne := lin.foldl (baseArgContractStep env currentContract) st
  lin.foldl (baseArgCompletenessStep currentContract) afterPassOne

/-! ### `checkConstructor` (source lines 344-361) -/

/-- The diagnostic for a constructor with a `returns` directive. -/
def ctorReturnsDiag (k : FunctionDefinition) : Diagnostic :=
  { kind := .TypeError
    primary := k.returnParameterListLocation
    secondary := []
    message := "Non-empty \"returns\" directive for constructor." }

/-- The diagnostic for a constructor whose mutability is neither non-payable
nor payable, naming the offending mutability. -/
def ctorMutabilityDiag (k : FunctionDefinition) : Diagnostic :=
  { kind := .TypeError
    primary := k.location
    secondary := []
    message := "Constructor must be payable or non-payable, but is \"" ++
      stateMutabilityToString k.stateMutability ++ "\"." }

/-- The diagnostic for a constructor that is neither public nor internal. -/
def ctorVisibilityDiag (k : FunctionDefinition) : Diagnostic :=
  { kind := .TypeError
    primary := k.location
    secondary := []
    message := "Constructor must be public or internal." }

/-- `checkConstructor` (source lines 344-361): no-op without a declared
constructor; otherwise the three independent validity checks. -/
def checkConstructor (c : ContractDefinition) (st : CheckState) : CheckState :=
  match c.constructor with
  | none => st
  | some k =>
    let returnsErrs := if k.returnTypes ≠ [] then [ctorReturnsDiag k] else []
    let mutabilityErrs :=
      if k.stateMutability ≠ StateMutability.NonPayable ∧
          k.stateMutability ≠ StateMutability.Payable then
        [ctorMutabilityDiag k]
      else []
    let visibilityErrs :=
      if k.visibility ≠ Visibility.Public ∧ k.visibility ≠ Visibility.Internal then
        [ctorVisibilityDiag k]
      else []
    { st with errors := st.errors ++ returnsErrs ++ mutabilityErrs ++ visibilityErrs }

/-! ### The driver `check` (source lines 36-46) -/

/-- `ContractLevelChecker::check` (source lines 36-46): the six sub-checks in
sequence over one contract, given the environment of known contracts and the
contract's linearized base list (most derived first, the contract itself at
the head). -/
def check (env : List ContractDefinition) (c : ContractDefinition)
    (lin : List ContractDefinition) (st : CheckState) : CheckState :=
  let st1 := checkDuplicateFunctions c st
  let st2 := checkDuplicateEvents c st1
  let st3 := checkIllegalOverrides lin st2
  let st4 := checkAbstractFunctions lin st3
  let st5 := checkBaseConstructorArguments env c lin st4
  checkConstructor c st5

/-! ## Concrete instances used by the claim theorems -/

/-- Helper: a source range in source unit `u`. -/
def mkLoc (u : Nat) (a b : Int) : SourceLocation := ⟨u, a, b⟩

/-- Helper: an ordinary (non-constructor) function declaration whose
return-parameter list shares the function's own range and which carries no
modifier invocations. -/
def mkFn (i : Nat) (n : String) (ps rs : List Ty) (v : Visibility)
    (sm : StateMutability) (impl : Bool) (l : SourceLocation) : FunctionDefinition :=
  ⟨i, n, false, ps, rs, v, sm, impl, l, l, []⟩

/-- Helper: a constructor declaration. -/
def mkCtor (i : Nat) (ps : List Ty) (v : Visibility) (sm : StateMutability)
    (mods : List ModifierInvocation) (l : SourceLocation) : FunctionDefinition :=
  ⟨i, "", true, ps, [], v, sm, true, l, l, mods⟩

/-- Helper: the checker state before any check ran. -/
def emptyState : CheckState := ⟨[], [], [], []⟩

/-- Whether the `baseConstructorArguments` map holds at most one entry per
base constructor (its keys are pairwise distinct). -/
def argKeysNodup (st : CheckState) : Prop :=
  (st.baseConstructorArguments.map Prod.fst).Nodup

/-- C10 data: two overloads of `f` with differing parameter-type sequences. -/
def fC10 : FunctionDefinition := mkFn 1001 "f" [0] [] .Public .NonPayable true (mkLoc 1 0 10)

/-- C10 data: the second overload. -/
def gC10 : FunctionDefinition := mkFn 1002 "f" [0, 1] [] .Public .NonPayable true (mkLoc 1 20 30)

/-- C6 data: a Public override of an Internal super function. -/
def fC6 : FunctionDefinition := mkFn 1101 "v" [7] [] .Public .NonPayable true (mkLoc 1 40 50)

/-- C6 data: the Internal super function. -/
def gC6 : FunctionDefinition := mkFn 1102 "v" [7] [] .Internal .NonPayable true (mkLoc 1 60 70)

/-- C7 data: an external `view` constructor. -/
def kC7 : FunctionDefinition :=
  ⟨1201, "", true, [], [], .External, .View, true, mkLoc 2 10 40, mkLoc 2 15 20, []⟩

/-- C7 data: the contract declaring that constructor. -/
def cC7 : ContractDefinition := ⟨120, [kC7], [], [], [], mkLoc 2 0 50⟩

/-- C4 data: a base constructor requiring arguments. -/
def kC4 : FunctionDefinition := mkCtor 1301 [5] .Public .NonPayable [] (mkLoc 3 10 20)

/-- C4 data: the first-registered argument supply site. -/
def nC4a : ArgNode := ⟨7001, mkLoc 3 100 110⟩

/-- C4 data: a second argument supply site for the same base constructor. -/
def nC4b : ArgNode := ⟨7002, mkLoc 3 200 210⟩

/-- C4 data: the contract being checked. -/
def cC4 : ContractDefinition := ⟨130, [], [], [], [], mkLoc 3 0 300⟩

/-- C4 data: a state whose map already holds the first supply site. -/
def stC4 : CheckState := ⟨[], [], [], [(kC4.fnId, nC4a)]⟩

/-- C8 data: a first constructor. -/
def k1C8 : FunctionDefinition := mkCtor 1401 [] .Public .NonPayable [] (mkLoc 4 10 20)

/-- C8 data: a second constructor. -/
def k2C8 : FunctionDefinition := mkCtor 1402 [] .Public .NonPayable [] (mkLoc 4 30 40)

/-- C8 data: a first fallback function. -/
def b1C8 : FunctionDefinition :=
  ⟨1403, "", false, [], [], .External, .NonPayable, true, mkLoc 4 50 60, mkLoc 4 50 60, []⟩

/-- C8 data: a second fallback function. -/
def b2C8 : FunctionDefinition :=
  ⟨1404, "", false, [], [], .External, .NonPayable, true, mkLoc 4 70 80, mkLoc 4 70 80, []⟩

/-- C8 data: a contract with two constructors and two fallbacks. -/
def cC8two : ContractDefinition := ⟨140, [k1C8, k2C8, b1C8, b2C8], [], [], [], mkLoc 4 0 100⟩

/-- C8 data: a contract with exactly one constructor. -/
def cC8one : ContractDefinition := ⟨141, [k1C8], [], [], [], mkLoc 4 0 100⟩

/-- C1 data: a first unimplemented overload of `f`. -/
def u1C1 : FunctionDefinition := mkFn 1501 "f" [0] [] .Public .NonPayable false (mkLoc 5 10 20)

/-- C1 data: a second unimplemented overload of `f` with different parameter
types. -/
def u2C1 : FunctionDefinition := mkFn 1502 "f" [1] [] .Public .NonPayable false (mkLoc 5 30 40)

/-- C1 data: a contract declaring both abstract overloads. -/
def cC1 : ContractDefinition := ⟨150, [u1C1, u2C1], [], [], [], mkLoc 5 0 100⟩

/-- C3 data: first member of the first colliding overload class of `g`. -/
def d1C3 : FunctionDefinition := mkFn 1601 "g" [0] [] .Public .NonPayable true (mkLoc 6 10 20)

/-- C3 data: second member of the first colliding class. -/
def d2C3 : FunctionDefinition := mkFn 1602 "g" [0] [] .Public .NonPayable true (mkLoc 6 30 40)

/-- C3 data: first member of a second, distinct colliding class of `g`. -/
def d3C3 : FunctionDefinition := mkFn 1603 "g" [1] [] .Public .NonPayable true (mkLoc 6 50 60)

/-- C3 data: second member of the second colliding class. -/
def d4C3 : FunctionDefinition := mkFn 1604 "g" [1] [] .Public .NonPayable true (mkLoc 6 70 80)

/-- C3 data: a contract declaring the two colliding pairs of `g`. -/
def cC3 : ContractDefinition := ⟨160, [d1C3, d2C3, d3C3, d4C3], [], [], [], mkLoc 6 0 100⟩

/-- C9 data: a single unimplemented function. -/
def fC9 : FunctionDefinition := mkFn 1701 "h" [] [] .Public .NonPayable false (mkLoc 7 10 20)

/-- C9 data: the contract declaring it. -/
def cC9 : ContractDefinition := ⟨170, [fC9], [], [], [], mkLoc 7 0 100⟩

/-- C2 data: the grandparent constructor requiring arguments. -/
def ctorA_C2 : FunctionDefinition := mkCtor 1801 [5] .Public .NonPayable [] (mkLoc 8 210 220)

/-- C2 data: the grandparent contract `A`. -/
def cA_C2 : ContractDefinition := ⟨180, [ctorA_C2], [], [], [], mkLoc 8 200 260⟩

/-- C2 data: `B`'s inheritance specifier supplying arguments for `A`
(textually inside `B`). -/
def specA_B_C2 : InheritanceSpecifier := ⟨8101, 180, some 1, mkLoc 8 110 120⟩

/-- C2 data: the parent contract `B is A(...)`. -/
def cB_C2 : ContractDefinition := ⟨181, [], [], [], [specA_B_C2], mkLoc 8 100 160⟩

/-- C2 data: `D`'s argument-less specifier of `B`. -/
def specB_D_C2 : InheritanceSpecifier := ⟨8201, 181, none, mkLoc 8 10 15⟩

/-- C2 data: `D`'s own specifier supplying arguments for `A` (textually
inside `D`). -/
def specA_D_C2 : InheritanceSpecifier := ⟨8202, 180, some 1, mkLoc 8 16 25⟩

/-- C2 data: the checked contract `D is B, A(...)`. -/
def cD_C2 : ContractDefinition := ⟨182, [], [], [], [specB_D_C2, specA_D_C2], mkLoc 8 0 60⟩

/-- C2 data: the environment of the one-site-inside scenario. -/
def envC2 : List ContractDefinition := [cA_C2, cB_C2, cD_C2]

/-- C2 diamond data: `B`'s specifier supplying arguments for `A`. -/
def specA_B2 : InheritanceSpecifier := ⟨8301, 180, some 1, mkLoc 8 110 120⟩

/-- C2 diamond data: the parent `B is A(...)`. -/
def cB2 : ContractDefinition := ⟨183, [], [], [], [specA_B2], mkLoc 8 100 160⟩

/-- C2 diamond data: `C`'s specifier supplying arguments for `A`. -/
def specA_C2 : InheritanceSpecifier := ⟨8401, 180, some 1, mkLoc 8 310 320⟩

/-- C2 diamond data: the parent `C is A(...)`. -/
def cC2c : ContractDefinition := ⟨184, [], [], [], [specA_C2], mkLoc 8 300 360⟩

/-- C2 diamond data: a variant parent `C is A` supplying no arguments. -/
def cC2n : ContractDefinition := ⟨185, [], [], [], [⟨8402, 180, none, mkLoc 8 310 320⟩], mkLoc 8 300 360⟩

/-- C2 diamond data: the checked contract `D is B, C` with both parents
supplying arguments for `A`. -/
def cD2 : ContractDefinition :=
  ⟨186, [], [], [], [⟨8501, 183, none, mkLoc 8 10 14⟩, ⟨8502, 184, none, mkLoc 8 15 19⟩],
   mkLoc 8 0 60⟩

/-- C2 diamond data: the variant `D` whose `C` parent supplies no
arguments. -/
def cD2n : ContractDefinition :=
  ⟨187, [], [], [], [⟨8503, 183, none, mkLoc 8 10 14⟩, ⟨8504, 185, none, mkLoc 8 15 19⟩],
   mkLoc 8 0 60⟩

/-- C2 diamond data: the environment of the diamond scenarios. -/
def envD2 : List ContractDefinition := [cA_C2, cB2, cC2c, cC2n, cD2, cD2n]

/-- C2 witness data: a first supply-site node. -/
def nC2a : ArgNode := ⟨9001, mkLoc 8 110 120⟩

/-- C2 witness data: a second supply-site node. -/
def nC2b : ArgNode := ⟨9002, mkLoc 8 310 320⟩

/-- C3 witness data: first member of a triple collision of `t`. -/
def t1C3 : FunctionDefinition := mkFn 1611 "t" [2] [] .Public .NonPayable true (mkLoc 6 110 120)

/-- C3 witness data: second member of the triple collision. -/
def t2C3 : FunctionDefinition := mkFn 1612 "t" [2] [] .Public .NonPayable true (mkLoc 6 130 140)

/-- C3 witness data: third member of the triple collision. -/
def t3C3 : FunctionDefinition := mkFn 1613 "t" [2] [] .Public .NonPayable true (mkLoc 6 150 160)

/-- The invariants of the abstract-check buckets: pairwise-distinct keys,
bucket members named after their key, pairwise-distinct parameter-type
classes inside each bucket, and false flags only on declarations without a
body. -/
def BucketsInv (m : List (String × List FunFlag)) : Prop :=
  (m.map Prod.fst).Nodup ∧
  (∀ p ∈ m, ∀ e ∈ p.2, e.fn.name = p.1) ∧
  (∀ p ∈ m, (p.2.map (fun e => e.fn.parameterTypes)).Nodup) ∧
  (∀ p ∈ m, ∀ e ∈ p.2, e.implemented = false → e.fn.isImplemented = false)

/-- The overload class of name `n` and parameter types `T` carries an
implemented entry. -/
def HasImpl (m : List (String × List FunFlag)) (n : String) (T : List Ty) : Prop :=
  ∃ e ∈ bucketGet m n, e.fn.parameterTypes = T ∧ e.implemented = true

/-- C5 data: the abstract function in the grandparent. -/
def fC5a : FunctionDefinition := mkFn 1901 "w" [3] [] .Public .NonPayable false (mkLoc 9 210 220)

/-- C5 data: the grandparent contract declaring `w` abstract. -/
def cC5a : ContractDefinition := ⟨190, [fC5a], [], [], [], mkLoc 9 200 260⟩

/-- C5 data: the direct parent, declaring no override. -/
def cC5b : ContractDefinition := ⟨191, [], [], [], [], mkLoc 9 100 160⟩

/-- C5 data: the implementing override in the most derived contract. -/
def fC5c : FunctionDefinition := mkFn 1902 "w" [3] [] .Public .NonPayable true (mkLoc 9 10 20)

/-- C5 data: the most derived contract. -/
def cC5c : ContractDefinition := ⟨192, [fC5c], [], [], [], mkLoc 9 0 60⟩

/-- C5 data: the linearization, most derived first. -/
def linC5 : List ContractDefinition := [cC5c, cC5b, cC5a]

/-- Generic lookup in a declaration-id-keyed association list (the common shape of the `superFunction` table and the supply-site map). -/
def lookupKey {α : Type} (m : List (Nat × α)) (k : Nat) : Option α :=
  (m.find? (fun p => p.1 == k)).map (·.2)

/-- A fold of guarded keep-first insertions: each item may attempt one insertion, which appends only when its key is absent.  Both annotation maps of the checker evolve by such folds. -/
def guardedInserts {α : Type} : List (Nat × α) → List (Bool × Nat × α) → List (Nat × α)
  | m, [] => m
  | m, (g, k, v) :: rest =>
    guardedInserts (if g && (lookupKey m k).isNone then m ++ [(k, v)] else m) rest

/-- The guarded `superFunction` writes generated when one walked function is paired against a bucket of previously seen overloads. -/
def overridePairsOfBucket (bucket : List FunctionDefinition) (f : FunctionDefinition) :
    List (Bool × Nat × Nat) :=
  bucket.map (fun g => (decide (g.parameterTypes = f.parameterTypes), g.fnId, f.fnId))

/-- The guarded `superFunction` writes generated by the functions of one contract of the override walk, together with the updated seen-functions buckets. -/
def overridePairsFns :
    List FunctionDefinition → List (String × List FunctionDefinition) →
    List (Bool × Nat × Nat) × List (String × List FunctionDefinition)
  | [], fns => ([], fns)
  | f :: rest, fns =>
    if f.isCtor then overridePairsFns rest fns
    else
      let here := overridePairsOfBucket (bucketGet fns f.name) f
      let tail := overridePairsFns rest (mapInsert f.name f fns)
      (here ++ tail.1, tail.2)

/-- The guarded `superFunction` writes generated by the whole derived-to-base walk from a given bucket state. -/
def overridePairsContracts :
    List ContractDefinition → List (String × List FunctionDefinition) →
    List (Bool × Nat × Nat)
  | [], _ => []
  | c :: rest, fns =>
    let here := overridePairsFns c.definedFunctions fns
    here.1 ++ overridePairsContracts rest here.2

/-- The guarded `superFunction` writes of `checkIllegalOverrides`, a function of the linearization alone. -/
def overridePairList (lin : List ContractDefinition) : List (Bool × Nat × Nat) :=
  overridePairsContracts lin []

/-- The supply site (if any) a modifier-style invocation registers. -/
def baseArgSiteOfModifier (env : List ContractDefinition) (mi : ModifierInvocation) :
    List (Bool × Nat × ArgNode) :=
  match mi.referencedContract.bind (lookupContract env) with
  | some baseContract =>
    if mi.hasArguments then
      match baseContract.constructor with
      | some ctor => [(true, ctor.fnId, ⟨mi.nodeId, mi.location⟩)]
      | none => []
    else []
  | none => []

/-- The supply site (if any) an inheritance specifier registers. -/
def baseArgSiteOfSpecifier (env : List ContractDefinition) (b : InheritanceSpecifier) :
    List (Bool × Nat × ArgNode) :=
  match lookupContract env b.baseId with
  | some baseContract =>
    match baseContract.constructor with
    | some ctor =>
      if b.hasNonemptyArguments then [(true, ctor.fnId, ⟨b.nodeId, b.location⟩)] else []
    | none => []
  | none => []

/-- The supply sites one contract of the hierarchy registers, modifier-style invocations first. -/
def baseArgSitesOfContract (env : List ContractDefinition) (c : ContractDefinition) :
    List (Bool × Nat × ArgNode) :=
  (match c.constructor with
   | some ctor => (ctor.modifierInvocations.map (baseArgSiteOfModifier env)).flatten
   | none => []) ++
    (c.baseContracts.map (baseArgSiteOfSpecifier env)).flatten

/-- All supply sites pass 1 of `checkBaseConstructorArguments` attempts to register, in order — a function of the environment and linearization alone. -/
def baseArgSites (env : List ContractDefinition) (lin : List ContractDefinition) :
    List (Bool × Nat × ArgNode) :=
  (lin.map (baseArgSitesOfContract env)).flatten

/-- The unimplemented base constructors pass 2 records, given the supply-site map left by pass 1. -/
def pass2Pushes (cc : ContractDefinition) (lin : List ContractDefinition)
    (m : List (Nat × ArgNode)) : List FunctionDefinition :=
  lin.filterMap (fun c =>
    match c.constructor with
    | some ctor =>
      if c.contractId ≠ cc.contractId ∧ ctor.parameterTypes ≠ [] then
        (if (lookupArg m ctor.fnId).isNone then some ctor else none)
      else none
    | none => none)

/-- The unimplemented entries `checkAbstractFunctions` appends — a function of the linearization alone. -/
def abstractPushes (lin : List ContractDefinition) : List FunctionDefinition :=
  (abstractWalk (abstractFunctionList lin) []).1.filterMap (fun b => firstUnimplemented b.2)

/-! ## Theorems: general lemmas -/

/-- A property preserved by every step of a fold is preserved by the fold. -/
theorem foldl_preserves {σ β : Type} {P : σ → Prop} (step : σ → β → σ)
    (h : ∀ s b, P s → P (step s b)) : ∀ (l : List β) (s : σ), P s → P (l.foldl step s)
  | [], _, hs => hs
  | b :: l, s, hs => foldl_preserves step h l (step s b) (h s b hs)

/-- An absent key of the supply-site map is exactly a key outside its key
list. -/
theorem lookupArg_eq_none_iff (m : List (Nat × ArgNode)) (k : Nat) :
    lookupArg m k = none ↔ k ∉ m.map Prod.fst := by
  rw [lookupArg, Option.map_eq_none', List.find?_eq_none]
  simp only [beq_iff_eq, List.mem_map, not_exists]
  aesop

/-- `annotateBaseConstructorArguments` keeps the map keys pairwise
distinct. -/
theorem annotate_keysNodup (c : ContractDefinition) (k : FunctionDefinition) (n : ArgNode)
    (st : CheckState) (h : argKeysNodup st) :
    argKeysNodup (annotateBaseConstructorArguments c k n st) := by
  unfold annotateBaseConstructorArguments
  split
  · rename_i hl
    have hk := (lookupArg_eq_none_iff _ _).1 hl
    unfold argKeysNodup at h ⊢
    simp only [List.map_append, List.map_cons, List.map_nil]
    simp [List.nodup_append, h, hk]
  · exact h

/-- A modifier-style registration step keeps the map keys pairwise
distinct. -/
theorem baseArgModifierStep_keysNodup (env : List ContractDefinition)
    (cc : ContractDefinition) (st : CheckState) (mi : ModifierInvocation)
    (h : argKeysNodup st) : argKeysNodup (baseArgModifierStep env cc st mi) := by
  unfold baseArgModifierStep
  split
  · split
    · split
      · exact annotate_keysNodup _ _ _ _ h
      · exact h
    · exact h
  · exact h

/-- An inheritance-specifier registration step keeps the map keys pairwise
distinct. -/
theorem baseArgSpecifierStep_keysNodup (env : List ContractDefinition)
    (cc : ContractDefinition) (st : CheckState) (b : InheritanceSpecifier)
    (h : argKeysNodup st) : argKeysNodup (baseArgSpecifierStep env cc st b) := by
  unfold baseArgSpecifierStep
  split
  · split
    · split
      · exact annotate_keysNodup _ _ _ _ h
      · exact h
    · exact h
  · exact h

/-- The whole base-constructor-argument check keeps the map keys pairwise
distinct. -/
theorem checkBaseConstructorArguments_keysNodup (env : List ContractDefinition)
    (cc : ContractDefinition) (lin : List ContractDefinition) (st : CheckState)
    (h : argKeysNodup st) :
    argKeysNodup (checkBaseConstructorArguments env cc lin st) := by
  unfold checkBaseConstructorArguments
  apply foldl_preserves
  · intro s b hs
    unfold baseArgCompletenessStep
    split
    · split
      · split
        · exact hs
        · exact hs
      · exact hs
    · exact hs
  · apply foldl_preserves
    · intro s b hs
      unfold baseArgContractStep
      apply foldl_preserves
      · intro s' b' hs'; exact baseArgSpecifierStep_keysNodup _ _ _ _ hs'
      · split
        · apply foldl_preserves
          · intro s' b' hs'; exact baseArgModifierStep_keysNodup _ _ _ _ hs'
          · exact hs
        · exact hs
    · exact h

/-- The constructor/fallback scan only appends to the diagnostics it was
given. -/
theorem scanCtorFallback_errs_mono :
    ∀ (fs : List FunctionDefinition) (ctorSeen fbSeen : Option FunctionDefinition)
      (buckets : List (String × List FunctionDefinition)) (errs : List Diagnostic),
    ∃ fresh, (scanCtorFallback fs ctorSeen fbSeen buckets errs).2 = errs ++ fresh := by
  intro fs
  induction fs with
  | nil => intro _ _ _ errs; exact ⟨[], by simp [scanCtorFallback]⟩
  | cons f rest ih =>
    intro ctorSeen fbSeen buckets errs
    simp only [scanCtorFallback]
    split
    · cases ctorSeen with
      | some cprev =>
        obtain ⟨fr, hfr⟩ := ih (some f) fbSeen buckets
          (errs ++ [duplicateSpecialDiag "More than one constructor defined." f cprev])
        exact ⟨[duplicateSpecialDiag "More than one constructor defined." f cprev] ++ fr,
          by rw [hfr, List.append_assoc]⟩
      | none => exact ih _ _ _ _
    · split
      · cases fbSeen with
        | some bprev =>
          obtain ⟨fr, hfr⟩ := ih ctorSeen (some f) buckets
            (errs ++ [duplicateSpecialDiag "Only one fallback function is allowed." f bprev])
          exact ⟨[duplicateSpecialDiag "Only one fallback function is allowed." f bprev] ++ fr,
            by rw [hfr, List.append_assoc]⟩
        | none => exact ih _ _ _ _
      · exact ih _ _ _ _

/-- With a constructor already seen, the next constructor in the list is
reported against it. -/
theorem scan_ctor_second_reported (k1 : FunctionDefinition) :
    ∀ (fs : List FunctionDefinition) (fbSeen : Option FunctionDefinition)
      (buckets : List (String × List FunctionDefinition)) (errs : List Diagnostic)
      (k2 : FunctionDefinition) (rest2 : List FunctionDefinition),
      fs.filter (·.isCtor) = k2 :: rest2 →
      duplicateSpecialDiag "More than one constructor defined." k2 k1 ∈
        (scanCtorFallback fs (some k1) fbSeen buckets errs).2 := by
  intro fs
  induction fs with
  | nil => intro _ _ _ _ _ h; simp at h
  | cons f rest ih =>
    intro fbSeen buckets errs k2 rest2 hf
    by_cases hc : f.isCtor
    · simp only [List.filter_cons, hc, if_true] at hf
      injection hf with h1 h2
      subst h1
      simp only [scanCtorFallback, hc, if_true]
      obtain ⟨fr, hfr⟩ := scanCtorFallback_errs_mono rest (some f) fbSeen buckets
        (errs ++ [duplicateSpecialDiag "More than one constructor defined." f k1])
      rw [hfr]
      simp
    · simp only [List.filter_cons, hc, Bool.false_eq_true, if_false] at hf
      simp only [scanCtorFallback, hc, Bool.false_eq_true, if_false]
      by_cases hb : f.isFallback
      · simp only [hb, if_true]
        cases fbSeen with
        | some bprev => exact ih _ _ _ _ _ hf
        | none => exact ih _ _ _ _ _ hf
      · simp only [hb, Bool.false_eq_true, if_false]
        exact ih _ _ _ _ _ hf

/-- When exactly two constructors appear, the second is reported against the
first. -/
theorem scan_two_ctors_reported :
    ∀ (fs : List FunctionDefinition) (fbSeen : Option FunctionDefinition)
      (buckets : List (String × List FunctionDefinition)) (errs : List Diagnostic)
      (k1 k2 : FunctionDefinition),
      fs.filter (·.isCtor) = [k1, k2] →
      duplicateSpecialDiag "More than one constructor defined." k2 k1 ∈
        (scanCtorFallback fs none fbSeen buckets errs).2 := by
  intro fs
  induction fs with
  | nil => intro _ _ _ _ _ h; simp at h
  | cons f rest ih =>
    intro fbSeen buckets errs k1 k2 hf
    by_cases hc : f.isCtor
    · simp only [List.filter_cons, hc, if_true] at hf
      injection hf with h1 h2
      subst h1
      simp only [scanCtorFallback, hc, if_true]
      exact scan_ctor_second_reported f rest fbSeen buckets errs k2 [] h2
    · simp only [List.filter_cons, hc, Bool.false_eq_true, if_false] at hf
      simp only [scanCtorFallback, hc, Bool.false_eq_true, if_false]
      by_cases hb : f.isFallback
      · simp only [hb, if_true]
        cases fbSeen with
        | some bprev => exact ih _ _ _ _ _ hf
        | none => exact ih _ _ _ _ _ hf
      · simp only [hb, Bool.false_eq_true, if_false]
        exact ih _ _ _ _ _ hf

/-- A constructor is never the fallback. -/
theorem ctor_not_fallback (f : FunctionDefinition) (h : f.isCtor = true) :
    f.isFallback = false := by
  simp [FunctionDefinition.isFallback, h]

/-- With a fallback already seen, the next fallback in the list is reported
against it. -/
theorem scan_fb_second_reported (b1 : FunctionDefinition) :
    ∀ (fs : List FunctionDefinition) (ctorSeen : Option FunctionDefinition)
      (buckets : List (String × List FunctionDefinition)) (errs : List Diagnostic)
      (b2 : FunctionDefinition) (rest2 : List FunctionDefinition),
      fs.filter (·.isFallback) = b2 :: rest2 →
      duplicateSpecialDiag "Only one fallback function is allowed." b2 b1 ∈
        (scanCtorFallback fs ctorSeen (some b1) buckets errs).2 := by
  intro fs
  induction fs with
  | nil => intro _ _ _ _ _ h; simp at h
  | cons f rest ih =>
    intro ctorSeen buckets errs b2 rest2 hf
    by_cases hc : f.isCtor
    · simp only [List.filter_cons, ctor_not_fallback f hc, Bool.false_eq_true, if_false] at hf
      simp only [scanCtorFallback, hc, if_true]
      cases ctorSeen with
      | some cprev => exact ih _ _ _ _ _ hf
      | none => exact ih _ _ _ _ _ hf
    · by_cases hb : f.isFallback
      · simp only [List.filter_cons, hb, if_true] at hf
        injection hf with h1 h2
        subst h1
        simp only [scanCtorFallback, hc, Bool.false_eq_true, if_false, hb, if_true]
        obtain ⟨fr, hfr⟩ := scanCtorFallback_errs_mono rest ctorSeen (some f) buckets
          (errs ++ [duplicateSpecialDiag "Only one fallback function is allowed." f b1])
        rw [hfr]
        simp
      · simp only [List.filter_cons, hb, Bool.false_eq_true, if_false] at hf
        simp only [scanCtorFallback, hc, Bool.false_eq_true, if_false, hb]
        exact ih _ _ _ _ _ hf

/-- When exactly two fallbacks appear, the second is reported against the
first. -/
theorem scan_two_fbs_reported :
    ∀ (fs : List FunctionDefinition) (ctorSeen : Option FunctionDefinition)
      (buckets : List (String × List FunctionDefinition)) (errs : List Diagnostic)
      (b1 b2 : FunctionDefinition),
      fs.filter (·.isFallback) = [b1, b2] →
      duplicateSpecialDiag "Only one fallback function is allowed." b2 b1 ∈
        (scanCtorFallback fs ctorSeen none buckets errs).2 := by
  intro fs
  induction fs with
  | nil => intro _ _ _ _ _ h; simp at h
  | cons f rest ih =>
    intro ctorSeen buckets errs b1 b2 hf
    by_cases hc : f.isCtor
    · simp only [List.filter_cons, ctor_not_fallback f hc, Bool.false_eq_true, if_false] at hf
      simp only [scanCtorFallback, hc, if_true]
      cases ctorSeen with
      | some cprev => exact ih _ _ _ _ _ hf
      | none => exact ih _ _ _ _ _ hf
    · by_cases hb : f.isFallback
      · simp only [List.filter_cons, hb, if_true] at hf
        injection hf with h1 h2
        subst h1
        simp only [scanCtorFallback, hc, Bool.false_eq_true, if_false, hb, if_true]
        exact scan_fb_second_reported f rest ctorSeen buckets errs b2 [] h2
      · simp only [List.filter_cons, hb, Bool.false_eq_true, if_false] at hf
        simp only [scanCtorFallback, hc, Bool.false_eq_true, if_false, hb]
        exact ih _ _ _ _ _ hf

/-- When the list holds at most one constructor in total (seen state
included), the scan never emits the duplicate-constructor message. -/
theorem scan_no_ctor_dup :
    ∀ (fs : List FunctionDefinition) (ctorSeen fbSeen : Option FunctionDefinition)
      (buckets : List (String × List FunctionDefinition)) (errs : List Diagnostic),
      (fs.filter (·.isCtor)).length + (if ctorSeen.isSome then 1 else 0) ≤ 1 →
      ∀ d ∈ (scanCtorFallback fs ctorSeen fbSeen buckets errs).2,
        d ∈ errs ∨ d.message ≠ "More than one constructor defined." := by
  intro fs
  induction fs with
  | nil =>
    intro ctorSeen fbSeen buckets errs _ d hd
    simp only [scanCtorFallback] at hd
    exact Or.inl hd
  | cons f rest ih =>
    intro ctorSeen fbSeen buckets errs hlen d hd
    by_cases hc : f.isCtor
    · simp only [List.filter_cons, hc, if_true, List.length_cons] at hlen
      cases ctorSeen with
      | some cprev =>
        exfalso
        simp only [Option.isSome_some, if_true] at hlen
        omega
      | none =>
        simp only [scanCtorFallback, hc, if_true] at hd
        refine ih (some f) fbSeen buckets errs ?_ d hd
        simp only [Option.isSome_some, if_true]
        simp only [Option.isSome_none, Bool.false_eq_true, if_false, Nat.add_zero] at hlen
        omega
    · simp only [List.filter_cons, hc, Bool.false_eq_true, if_false] at hlen
      simp only [scanCtorFallback, hc, Bool.false_eq_true, if_false] at hd
      by_cases hb : f.isFallback
      · simp only [hb, if_true] at hd
        cases fbSeen with
        | some bprev =>
          rcases ih ctorSeen (some f) buckets _ hlen d hd with hin | hne
          · rcases List.mem_append.1 hin with hin | hin
            · exact Or.inl hin
            · right
              simp only [List.mem_singleton] at hin
              subst hin
              simp [duplicateSpecialDiag]
          · exact Or.inr hne
        | none => exact ih ctorSeen (some f) buckets errs hlen d hd
      · simp only [hb, Bool.false_eq_true, if_false] at hd
        exact ih ctorSeen fbSeen _ errs hlen d hd

/-- Every diagnostic of the duplicate scan carries the scan's message,
possibly extended by the truncation note. -/
theorem dupScan_message_shape {α : Type} (pt : α → List Ty) (lo : α → SourceLocation)
    (msg : String) :
    ∀ (l : List α) (i : Nat) (rep : List Nat), ∀ d ∈ dupScan pt lo msg l i rep,
      d.message = msg ∨ ∃ t, d.message = msg ++ t := by
  intro l
  induction l with
  | nil => intro i rep d hd; simp [dupScan] at hd
  | cons cur rest ih =>
    intro i rep d hd
    by_cases hrep : i ∈ rep
    · simp [dupScan, hrep] at hd
    · by_cases hlen : 0 < (dupCollect pt lo rest (i + 1) (pt cur)).1.length
      · simp only [dupScan, hrep, if_false, hlen, if_true] at hd
        rw [List.mem_cons] at hd
        rcases hd with hd | hd
        · subst hd
          show (limitSize (dupCollect pt lo rest (i + 1) (pt cur)).1 msg).2 = msg ∨ _
          unfold limitSize
          split
          · exact Or.inr ⟨_, rfl⟩
          · exact Or.inl rfl
        · exact ih _ _ d hd
      · simp only [dupScan, hrep, if_false, hlen] at hd
        exact ih _ _ d hd

/-- Every diagnostic of `findDuplicateDefinitions` carries the passed message,
possibly extended by the truncation note. -/
theorem findDuplicateDefinitions_message_shape {α : Type} (pt : α → List Ty)
    (lo : α → SourceLocation) (msg : String)
    (defs : List (String × List α)) :
    ∀ d ∈ findDuplicateDefinitions pt lo msg defs,
      d.message = msg ∨ ∃ t, d.message = msg ++ t := by
  intro d hd
  simp only [findDuplicateDefinitions, List.mem_flatten, List.mem_map] at hd
  obtain ⟨l, ⟨b, _, rfl⟩, hdl⟩ := hd
  exact dupScan_message_shape pt lo msg b.2 0 [] d hdl

/-- A duplicate-function-definition diagnostic never carries the
duplicate-constructor message. -/
theorem fnDupMsg_ne_ctorMsg (d : Diagnostic)
    (h : d.message = "Function with same name and arguments defined twice." ∨
      ∃ t, d.message = "Function with same name and arguments defined twice." ++ t) :
    d.message ≠ "More than one constructor defined." := by
  rcases h with h | ⟨t, h⟩ <;> rw [h]
  · decide
  · intro hc
    have hlen := congrArg String.length hc
    rw [String.length_append] at hlen
    have h1 : ("Function with same name and arguments defined twice." : String).length = 52 := by
      decide
    have h2 : ("More than one constructor defined." : String).length = 34 := by decide
    rw [h1, h2] at hlen
    omega

/-- The returns diagnostic differs from the mutability diagnostic. -/
theorem ctorDiag_ret_ne_mut (k : FunctionDefinition) :
    ctorReturnsDiag k ≠ ctorMutabilityDiag k := by
  cases hk : k.stateMutability <;> simp [ctorReturnsDiag, ctorMutabilityDiag, hk] <;>
    exact fun _ => by decide

/-- The returns diagnostic differs from the visibility diagnostic. -/
theorem ctorDiag_ret_ne_vis (k : FunctionDefinition) :
    ctorReturnsDiag k ≠ ctorVisibilityDiag k := by
  simp [ctorReturnsDiag, ctorVisibilityDiag]

/-- The mutability diagnostic differs from the visibility diagnostic. -/
theorem ctorDiag_mut_ne_vis (k : FunctionDefinition) :
    ctorMutabilityDiag k ≠ ctorVisibilityDiag k := by
  cases hk : k.stateMutability <;> simp [ctorMutabilityDiag, ctorVisibilityDiag, hk] <;> decide

/-! ## Claim theorems -/

/-- C10: for a pair of same-named functions whose parameter-type sequences
are not equal, `checkFunctionOverride` emits no diagnostic and leaves the
`superFunction` table unchanged — return types, visibility and mutability are
compared only under structural parameter-type equality, so
differing-parameter overloads never trigger override errors or super-function
recording. -/
theorem C10_unequal_parameters_no_effect (f g : FunctionDefinition)
    (m : List (Nat × Nat)) (h : f.parameterTypes ≠ g.parameterTypes) :
    checkFunctionOverride f g m = ([], m) := by
  simp [checkFunctionOverride, h]

/-- Witness for C10 at a concrete differing-parameter overload pair. -/
theorem C10_unequal_parameters_no_effect_witness :
    fC10.parameterTypes ≠ gC10.parameterTypes ∧
      checkFunctionOverride fC10 gC10 [] = ([], []) :=
  ⟨by decide, C10_unequal_parameters_no_effect fC10 gC10 [] (by decide)⟩

/-- C6: under equal parameter types, the "Overriding function visibility
differs." type error is emitted exactly when the two visibilities differ and
the transition is not External (super) to Public (override); in particular
the External-to-Public widening never errors on visibility, and every other
differing pair does. -/
theorem C6_visibility_override_rule (f g : FunctionDefinition) (m : List (Nat × Nat))
    (h : f.parameterTypes = g.parameterTypes) :
    overrideError f g "Overriding function visibility differs." ∈
        (checkFunctionOverride f g m).1 ↔
      (f.visibility ≠ g.visibility ∧
        ¬ (g.visibility = Visibility.External ∧ f.visibility = Visibility.Public)) := by
  have hmut : ("Overriding function changes state mutability from \"" ++
      stateMutabilityToString g.stateMutability ++ "\" to \"" ++
      stateMutabilityToString f.stateMutability ++ "\".") ≠
      "Overriding function visibility differs." := by
    cases hg : g.stateMutability <;> cases hf : f.stateMutability <;> decide
  have hret : ("Overriding function return types differ." : String) ≠
      "Overriding function visibility differs." := by decide
  by_cases hv : f.visibility = g.visibility <;>
    by_cases hex : g.visibility = Visibility.External ∧ f.visibility = Visibility.Public <;>
      by_cases hr : f.returnTypes = g.returnTypes <;>
        by_cases hm : f.stateMutability = g.stateMutability <;>
          simp [checkFunctionOverride, h, hv, hex, hr, hm, overrideError, hmut, hret,
            Ne.symm hmut, Ne.symm hret]

/-- Witness for C6: an Internal-to-Public visibility change on an
equal-parameter override is reported. -/
theorem C6_visibility_override_rule_witness :
    fC6.parameterTypes = gC6.parameterTypes ∧
      (overrideError fC6 gC6 "Overriding function visibility differs." ∈
          (checkFunctionOverride fC6 gC6 []).1 ↔
        (fC6.visibility ≠ gC6.visibility ∧
          ¬ (gC6.visibility = Visibility.External ∧ fC6.visibility = Visibility.Public))) :=
  ⟨rfl, C6_visibility_override_rule fC6 gC6 [] rfl⟩

/-- C7: a contract without a constructor gets none of the three constructor
diagnostics; with a constructor, the three checks are independent and each
fires exactly under its own condition — non-empty returns, mutability outside
NonPayable/Payable (named in the message), visibility outside
Public/Internal — and an external constructor always fails the visibility
check whatever its mutability. -/
theorem C7_constructor_validity (c : ContractDefinition) (st : CheckState) :
    (c.constructor = none → checkConstructor c st = st) ∧
    (∀ k, c.constructor = some k →
      ∃ fresh, (checkConstructor c st).errors = st.errors ++ fresh ∧
        (∀ d ∈ fresh, d.kind = ErrorKind.TypeError) ∧
        (ctorReturnsDiag k ∈ fresh ↔ k.returnTypes ≠ []) ∧
        (ctorMutabilityDiag k ∈ fresh ↔
          (k.stateMutability ≠ StateMutability.NonPayable ∧
            k.stateMutability ≠ StateMutability.Payable)) ∧
        (ctorVisibilityDiag k ∈ fresh ↔
          (k.visibility ≠ Visibility.Public ∧ k.visibility ≠ Visibility.Internal)) ∧
        (k.visibility = Visibility.External → ctorVisibilityDiag k ∈ fresh)) := by
  constructor
  · intro h0; simp [checkConstructor, h0]
  · intro k hk
    refine ⟨(if k.returnTypes ≠ [] then [ctorReturnsDiag k] else []) ++
      (if k.stateMutability ≠ StateMutability.NonPayable ∧
          k.stateMutability ≠ StateMutability.Payable then [ctorMutabilityDiag k] else []) ++
      (if k.visibility ≠ Visibility.Public ∧ k.visibility ≠ Visibility.Internal then
        [ctorVisibilityDiag k] else []), ?_, ?_, ?_, ?_, ?_, ?_⟩
    · simp [checkConstructor, hk]
    · intro d hd
      rcases List.mem_append.1 hd with hd | hd
      · rcases List.mem_append.1 hd with hd | hd <;> split at hd <;>
          simp_all [ctorReturnsDiag, ctorMutabilityDiag]
      · split at hd <;> simp_all [ctorVisibilityDiag]
    · have h1 := ctorDiag_ret_ne_mut k
      have h2 := ctorDiag_ret_ne_vis k
      split <;> split <;> split <;> simp_all
    · have h1 := (ctorDiag_ret_ne_mut k).symm
      have h2 := ctorDiag_mut_ne_vis k
      split <;> split <;> split <;> simp_all
    · have h1 := (ctorDiag_ret_ne_vis k).symm
      have h2 := (ctorDiag_mut_ne_vis k).symm
      split <;> split <;> split <;> simp_all
    · intro hext
      have h1 : k.visibility ≠ Visibility.Public ∧ k.visibility ≠ Visibility.Internal := by
        rw [hext]; exact ⟨by decide, by decide⟩
      simp [h1]

/-- Witness for C7: an external `view` constructor. -/
theorem C7_constructor_validity_witness :
    cC7.constructor = some kC7 ∧
      ∃ fresh, (checkConstructor cC7 emptyState).errors = emptyState.errors ++ fresh ∧
        (∀ d ∈ fresh, d.kind = ErrorKind.TypeError) ∧
        (ctorReturnsDiag kC7 ∈ fresh ↔ kC7.returnTypes ≠ []) ∧
        (ctorMutabilityDiag kC7 ∈ fresh ↔
          (kC7.stateMutability ≠ StateMutability.NonPayable ∧
            kC7.stateMutability ≠ StateMutability.Payable)) ∧
        (ctorVisibilityDiag kC7 ∈ fresh ↔
          (kC7.visibility ≠ Visibility.Public ∧ kC7.visibility ≠ Visibility.Internal)) ∧
        (kC7.visibility = Visibility.External → ctorVisibilityDiag kC7 ∈ fresh) :=
  ⟨rfl, (C7_constructor_validity cC7 emptyState).2 kC7 rfl⟩

/-- C4: the per-contract `baseConstructorArguments` map keeps the first
registered supply site for each base constructor — a registration attempt for
a present key reports one "Base constructor arguments given twice."
declaration error and leaves the map untouched, an absent key is inserted
silently, and the whole base-constructor check keeps the map's keys pairwise
distinct (at most one entry per base constructor). -/
theorem C4_supply_site_kept_first (c : ContractDefinition) (k : FunctionDefinition)
    (n : ArgNode) (st : CheckState) :
    ((lookupArg st.baseConstructorArguments k.fnId).isSome = true →
      (annotateBaseConstructorArguments c k n st).baseConstructorArguments =
          st.baseConstructorArguments ∧
        ∃ d, (annotateBaseConstructorArguments c k n st).errors = st.errors ++ [d] ∧
          d.kind = ErrorKind.DeclarationError ∧
          d.message = "Base constructor arguments given twice.") ∧
    (lookupArg st.baseConstructorArguments k.fnId = none →
      (annotateBaseConstructorArguments c k n st).baseConstructorArguments =
          st.baseConstructorArguments ++ [(k.fnId, n)] ∧
        (annotateBaseConstructorArguments c k n st).errors = st.errors) ∧
    (∀ env lin, argKeysNodup st →
      argKeysNodup (checkBaseConstructorArguments env c lin st)) := by
  refine ⟨?_, ?_, ?_⟩
  · intro hs
    unfold annotateBaseConstructorArguments
    cases hl : lookupArg st.baseConstructorArguments k.fnId with
    | none => rw [hl] at hs; simp at hs
    | some prev => exact ⟨rfl, ⟨_, rfl, rfl, rfl⟩⟩
  · intro hl
    unfold annotateBaseConstructorArguments
    rw [hl]
    exact ⟨rfl, rfl⟩
  · intro env lin h
    exact checkBaseConstructorArguments_keysNodup env c lin st h

/-- Witness for C4: a second supply site for an already-registered base
constructor is rejected without overwriting. -/
theorem C4_supply_site_kept_first_witness :
    (lookupArg stC4.baseConstructorArguments kC4.fnId).isSome = true ∧
      ((annotateBaseConstructorArguments cC4 kC4 nC4b stC4).baseConstructorArguments =
          stC4.baseConstructorArguments ∧
        ∃ d, (annotateBaseConstructorArguments cC4 kC4 nC4b stC4).errors =
            stC4.errors ++ [d] ∧
          d.kind = ErrorKind.DeclarationError ∧
          d.message = "Base constructor arguments given twice.") :=
  ⟨by decide, (C4_supply_site_kept_first cC4 kC4 nC4b stC4).1 (by decide)⟩

/-- C8: a second declared constructor is reported by a "More than one
constructor defined." declaration error anchored at the second occurrence
with the first as secondary location, a second fallback likewise with "Only
one fallback function is allowed.", and a contract with at most one declared
constructor never receives the duplicate-constructor message from this
check. -/
theorem C8_at_most_one_constructor_and_fallback (c : ContractDefinition) (st : CheckState) :
    (∀ k1 k2, c.definedFunctions.filter (·.isCtor) = [k1, k2] →
      duplicateSpecialDiag "More than one constructor defined." k2 k1 ∈
        (checkDuplicateFunctions c st).errors) ∧
    (∀ b1 b2, c.definedFunctions.filter (·.isFallback) = [b1, b2] →
      duplicateSpecialDiag "Only one fallback function is allowed." b2 b1 ∈
        (checkDuplicateFunctions c st).errors) ∧
    ((c.definedFunctions.filter (·.isCtor)).length ≤ 1 →
      ∀ d ∈ (checkDuplicateFunctions c st).errors,
        d ∈ st.errors ∨ d.message ≠ "More than one constructor defined.") := by
  refine ⟨?_, ?_, ?_⟩
  · intro k1 k2 hf
    have hmem := scan_two_ctors_reported c.definedFunctions none [] [] k1 k2 hf
    simp only [checkDuplicateFunctions]
    exact List.mem_append.2 (Or.inl (List.mem_append.2 (Or.inr hmem)))
  · intro b1 b2 hf
    have hmem := scan_two_fbs_reported c.definedFunctions none [] [] b1 b2 hf
    simp only [checkDuplicateFunctions]
    exact List.mem_append.2 (Or.inl (List.mem_append.2 (Or.inr hmem)))
  · intro hlen d hd
    simp only [checkDuplicateFunctions] at hd
    rcases List.mem_append.1 hd with hd | hd
    · rcases List.mem_append.1 hd with hd | hd
      · exact Or.inl hd
      · have := scan_no_ctor_dup c.definedFunctions none none [] [] (by simpa using hlen) d hd
        rcases this with hin | hne
        · simp at hin
        · exact Or.inr hne
    · refine Or.inr (fnDupMsg_ne_ctorMsg d ?_)
      exact findDuplicateDefinitions_message_shape _ _ _ _ d hd

/-- Witness for C8: a contract with two constructors and two fallbacks gets
both duplicate reports; one with a single constructor gets no
duplicate-constructor message. -/
theorem C8_at_most_one_constructor_and_fallback_witness :
    (cC8two.definedFunctions.filter (·.isCtor) = [k1C8, k2C8] ∧
      duplicateSpecialDiag "More than one constructor defined." k2C8 k1C8 ∈
        (checkDuplicateFunctions cC8two emptyState).errors) ∧
    (cC8two.definedFunctions.filter (·.isFallback) = [b1C8, b2C8] ∧
      duplicateSpecialDiag "Only one fallback function is allowed." b2C8 b1C8 ∈
        (checkDuplicateFunctions cC8two emptyState).errors) ∧
    ((cC8one.definedFunctions.filter (·.isCtor)).length ≤ 1 ∧
      ∀ d ∈ (checkDuplicateFunctions cC8one emptyState).errors,
        d ∈ emptyState.errors ∨ d.message ≠ "More than one constructor defined.") :=
  ⟨⟨by decide, (C8_at_most_one_constructor_and_fallback cC8two emptyState).1 k1C8 k2C8
      (by decide)⟩,
   ⟨by decide, (C8_at_most_one_constructor_and_fallback cC8two emptyState).2.1 b1C8 b2C8
      (by decide)⟩,
   ⟨by decide, (C8_at_most_one_constructor_and_fallback cC8one emptyState).2.2 (by decide)⟩⟩

/-- C1 counterexample: contract `cC1` leaves two overload classes of the same
name `f` flagged not implemented after the walk, yet only the first class's
representative is recorded in `unimplementedFunctions` — the recording loop
breaks after the first unimplemented class of each name, so the claim that
both representatives are recorded fails. -/
theorem C1_counterexample :
    (⟨u1C1, false⟩ : FunFlag) ∈
        bucketGet (abstractWalk (abstractFunctionList [cC1]) []).1 "f" ∧
      (⟨u2C1, false⟩ : FunFlag) ∈
        bucketGet (abstractWalk (abstractFunctionList [cC1]) []).1 "f" ∧
      (checkAbstractFunctions [cC1] emptyState).unimplementedFunctions = [u1C1] ∧
      u2C1 ∉ (checkAbstractFunctions [cC1] emptyState).unimplementedFunctions := by
  decide

/-- C3 counterexample: in contract `cC3` the declarations `d3C3` and `d4C3`
form a colliding pair (equal names and parameter types, distinct
declarations), yet the single emitted diagnostic never mentions `d3C3` at
all — the per-name scan stops at the first already-reported index, so the
claim that every affected declaration receives a diagnostic fails. -/
theorem C3_counterexample :
    d3C3.parameterTypes = d4C3.parameterTypes ∧ d3C3 ≠ d4C3 ∧
      (checkDuplicateFunctions cC3 emptyState).errors =
        [⟨ErrorKind.DeclarationError, d1C3.location,
          [⟨"Other declaration is here:", d2C3.location⟩],
          "Function with same name and arguments defined twice."⟩] ∧
      ∀ d ∈ (checkDuplicateFunctions cC3 emptyState).errors,
        d.primary ≠ d3C3.location ∧ ∀ s ∈ d.secondary, s.loc ≠ d3C3.location := by
  decide

/-- C9 counterexample: running the full check twice over the unchanged
contract `cC9` does not reproduce the result of one run — the unimplemented
entry is appended a second time. -/
theorem C9_counterexample :
    (check [] cC9 [cC9] emptyState).unimplementedFunctions = [fC9] ∧
      (check [] cC9 [cC9] (check [] cC9 [cC9] emptyState)).unimplementedFunctions =
        [fC9, fC9] ∧
      check [] cC9 [cC9] (check [] cC9 [cC9] emptyState) ≠ check [] cC9 [cC9] emptyState := by
  decide

/-- C2 counterexample: in the `envC2` hierarchy the two supply sites for
`A`'s constructor are the specifier inside `D` (registered first) and the one
inside `B` (outside `D`), so not both sites fall within the checked
contract — the claim then demands the error be anchored at `D`'s own
location, but the code anchors it at the first-registered node because the
source condition is a disjunction, not a conjunction. -/
theorem C2_counterexample :
    cD_C2.location.contains specA_D_C2.location = true ∧
      cD_C2.location.contains specA_B_C2.location = false ∧
      (checkBaseConstructorArguments envC2 cD_C2 [cD_C2, cB_C2, cA_C2] emptyState).errors =
        [⟨ErrorKind.DeclarationError, specA_D_C2.location,
          [⟨"Second constructor call is here:", specA_B_C2.location⟩],
          "Base constructor arguments given twice."⟩] ∧
      specA_D_C2.location ≠ cD_C2.location := by
  decide

/-- Appending a fresh key to the supply-site map makes it found. -/
theorem lookupArg_append_self_of_none (m : List (Nat × ArgNode)) (k : Nat) (n : ArgNode)
    (h : lookupArg m k = none) : lookupArg (m ++ [(k, n)]) k = some n := by
  induction m with
  | nil => simp [lookupArg]
  | cons p rest ih =>
    by_cases hp : p.1 = k
    · exfalso
      simp [lookupArg, List.find?_cons, hp] at h
    · simp only [lookupArg, List.cons_append, List.find?] at h ⊢
      have hb : (p.1 == k) = false := by simp [hp]
      rw [hb] at h ⊢
      exact ih h

/-- C2 (amended): registering two supply sites for the same base constructor
keeps the first in the map and emits exactly one "Base constructor arguments
given twice." error placed by this rule — if *either* site's range falls
within the checked contract, the primary location is the first-registered
node with the second as secondary; only when neither does is the error
anchored at the contract's own location naming both sites.  The diamond
consequences hold as claimed: with both B and C supplying arguments for A,
the error is anchored at D's location listing both sites as secondary, and
supplying arguments at exactly one of B or C yields no error. -/
theorem C2_amended_duplicate_supply_placement (c : ContractDefinition)
    (k : FunctionDefinition) (n1 n2 : ArgNode) (st : CheckState)
    (h : lookupArg st.baseConstructorArguments k.fnId = none) :
    ((annotateBaseConstructorArguments c k n2
        (annotateBaseConstructorArguments c k n1 st)).baseConstructorArguments =
      st.baseConstructorArguments ++ [(k.fnId, n1)] ∧
     (annotateBaseConstructorArguments c k n2
        (annotateBaseConstructorArguments c k n1 st)).errors =
      st.errors ++
        [if c.location.contains n1.location || c.location.contains n2.location then
          ⟨ErrorKind.DeclarationError, n1.location,
            [⟨"Second constructor call is here:", n2.location⟩],
            "Base constructor arguments given twice."⟩
        else
          ⟨ErrorKind.DeclarationError, c.location,
            [⟨"First constructor call is here: ", n2.location⟩,
             ⟨"Second constructor call is here: ", n1.location⟩],
            "Base constructor arguments given twice."⟩]) ∧
    (checkBaseConstructorArguments envD2 cD2 [cD2, cB2, cC2c, cA_C2] emptyState).errors =
      [⟨ErrorKind.DeclarationError, cD2.location,
        [⟨"First constructor call is here: ", specA_C2.location⟩,
         ⟨"Second constructor call is here: ", specA_B2.location⟩],
        "Base constructor arguments given twice."⟩] ∧
    (checkBaseConstructorArguments envD2 cD2n [cD2n, cB2, cC2n, cA_C2] emptyState).errors =
      [] ∧
    (checkBaseConstructorArguments envD2 cD2n
        [cD2n, cB2, cC2n, cA_C2] emptyState).unimplementedFunctions = [] := by
  refine ⟨?_, by decide, by decide, by decide⟩
  have e1 : annotateBaseConstructorArguments c k n1 st =
      { st with baseConstructorArguments := st.baseConstructorArguments ++ [(k.fnId, n1)] } := by
    unfold annotateBaseConstructorArguments
    rw [h]
  rw [e1]
  have h2 : lookupArg (st.baseConstructorArguments ++ [(k.fnId, n1)]) k.fnId = some n1 :=
    lookupArg_append_self_of_none _ _ _ h
  constructor
  · unfold annotateBaseConstructorArguments
    rw [h2]
  · unfold annotateBaseConstructorArguments
    rw [h2]
    by_cases hc : (c.location.contains n1.location || c.location.contains n2.location) = true
    · simp [hc]
    · simp [hc]

/-- Witness for the amended C2 at a concrete pair of supply sites, neither
inside the checked contract. -/
theorem C2_amended_duplicate_supply_placement_witness :
    lookupArg emptyState.baseConstructorArguments ctorA_C2.fnId = none ∧
      ((annotateBaseConstructorArguments cD2 ctorA_C2 nC2b
          (annotateBaseConstructorArguments cD2 ctorA_C2 nC2a emptyState)).baseConstructorArguments =
        emptyState.baseConstructorArguments ++ [(ctorA_C2.fnId, nC2a)] ∧
       (annotateBaseConstructorArguments cD2 ctorA_C2 nC2b
          (annotateBaseConstructorArguments cD2 ctorA_C2 nC2a emptyState)).errors =
        emptyState.errors ++
          [if cD2.location.contains nC2a.location || cD2.location.contains nC2b.location then
            ⟨ErrorKind.DeclarationError, nC2a.location,
              [⟨"Second constructor call is here:", nC2b.location⟩],
              "Base constructor arguments given twice."⟩
          else
            ⟨ErrorKind.DeclarationError, cD2.location,
              [⟨"First constructor call is here: ", nC2b.location⟩,
               ⟨"Second constructor call is here: ", nC2a.location⟩],
              "Base constructor arguments given twice."⟩]) :=
  ⟨by decide,
   (C2_amended_duplicate_supply_placement cD2 ctorA_C2 nC2a nC2b emptyState (by decide)).1⟩

/-- Over a run of equal parameter types, the duplicate collection gathers one
secondary location per declaration, in order. -/
theorem dupCollect_all_eq_fst {α : Type} (ptypes : α → List Ty) (locOf : α → SourceLocation)
    (pt : List Ty) :
    ∀ (l : List α) (j : Nat), (∀ g ∈ l, ptypes g = pt) →
      (dupCollect ptypes locOf l j pt).1 =
        l.map (fun g => (⟨"Other declaration is here:", locOf g⟩ : SecondaryLoc)) := by
  intro l
  induction l with
  | nil => intro j _; simp [dupCollect]
  | cons g rest ih =>
    intro j hall
    have hg : ptypes g = pt := hall g (List.mem_cons_self _ _)
    simp only [dupCollect, hg, List.map_cons]
    simp only [decide_True, if_true]
    rw [ih (j + 1) (fun x hx => hall x (List.mem_cons_of_mem _ hx))]

/-- C3 (amended): a name bucket forming a single colliding overload class —
the three-or-more case included — produces exactly one duplicate-definition
diagnostic, anchored deterministically at the first-seen declaration with all
later class members attached as secondary locations; the per-name scan stops
at the first already-reported declaration, so there is one diagnostic per
colliding class reached (not one per affected declaration or per unordered
pair), and a later distinct colliding class of the same name can go
unreported. -/
theorem C3_amended_one_diagnostic_per_class {α : Type} (ptypes : α → List Ty)
    (locOf : α → SourceLocation) (message : String) (nm : String) (f : α) (rest : List α)
    (hne : rest ≠ []) (hall : ∀ g ∈ rest, ptypes g = ptypes f) (hsz : rest.length ≤ 32) :
    dupScan ptypes locOf message (f :: rest) 0 [] =
      [⟨ErrorKind.DeclarationError, locOf f,
        rest.map (fun g => ⟨"Other declaration is here:", locOf g⟩), message⟩] ∧
    findDuplicateDefinitions ptypes locOf message [(nm, f :: rest)] =
      [⟨ErrorKind.DeclarationError, locOf f,
        rest.map (fun g => ⟨"Other declaration is here:", locOf g⟩), message⟩] := by
  have hmain : dupScan ptypes locOf message (f :: rest) 0 [] =
      [⟨ErrorKind.DeclarationError, locOf f,
        rest.map (fun g => ⟨"Other declaration is here:", locOf g⟩), message⟩] := by
    obtain ⟨g, rest', rfl⟩ := List.exists_cons_of_ne_nil hne
    have hfst := dupCollect_all_eq_fst ptypes locOf (ptypes f) (g :: rest') 1 hall
    have hg : ptypes g = ptypes f := hall g (List.mem_cons_self _ _)
    have hsnd : (dupCollect ptypes locOf (g :: rest') 1 (ptypes f)).2 =
        1 :: (dupCollect ptypes locOf rest' 2 (ptypes f)).2 := by
      simp [dupCollect, hg]
    simp only [dupScan, List.not_mem_nil, if_false, List.nil_append]
    rw [hfst, hsnd]
    have hpos : 0 < (List.map
        (fun g => ({ label := "Other declaration is here:", loc := locOf g } : SecondaryLoc))
        (g :: rest')).length := by simp
    have hmem : (0 + 1 : Nat) ∈ 1 :: (dupCollect ptypes locOf rest' 2 (ptypes f)).2 := by simp
    rw [if_pos hpos, if_pos hmem]
    have hnlim : ¬ 32 < (List.map
        (fun g => ({ label := "Other declaration is here:", loc := locOf g } : SecondaryLoc))
        (g :: rest')).length := by
      simp only [List.length_map]
      omega
    unfold limitSize
    rw [if_neg hnlim]
  refine ⟨hmain, ?_⟩
  simp [findDuplicateDefinitions, hmain]

/-- Witness for the amended C3: a triple collision yields one diagnostic
anchored at the first declaration with both peers secondary. -/
theorem C3_amended_one_diagnostic_per_class_witness :
    ([t2C3, t3C3] ≠ ([] : List FunctionDefinition) ∧
      (∀ g ∈ [t2C3, t3C3], g.parameterTypes = t1C3.parameterTypes) ∧
      ([t2C3, t3C3] : List FunctionDefinition).length ≤ 32) ∧
      dupScan (·.parameterTypes) (·.location)
          "Function with same name and arguments defined twice." [t1C3, t2C3, t3C3] 0 [] =
        [⟨ErrorKind.DeclarationError, t1C3.location,
          [t2C3, t3C3].map (fun g => ⟨"Other declaration is here:", g.location⟩),
          "Function with same name and arguments defined twice."⟩] :=
  ⟨⟨by decide, by decide, by decide⟩,
   (C3_amended_one_diagnostic_per_class (·.parameterTypes) (·.location)
      "Function with same name and arguments defined twice." "t" t1C3 [t2C3, t3C3]
      (by decide) (by decide) (by decide)).1⟩
theorem bucketGet_mem {α : Type} (m : List (String × List α)) (k : String)
    (h : bucketGet m k ≠ []) : (k, bucketGet m k) ∈ m := by
  unfold bucketGet at *
  cases hf : m.find? (fun p => p.1 == k) with
  | none => simp [hf] at h
  | some p =>
    simp only [hf] at h ⊢
    have hp := List.find?_some hf
    have hm := List.mem_of_find?_eq_some hf
    simp only [beq_iff_eq] at hp
    rw [← hp]
    exact hm

theorem bucketGet_bucketSet_self {α : Type} (k : String) (v : List α) :
    ∀ m : List (String × List α), bucketGet (bucketSet k v m) k = v := by
  intro m
  induction m with
  | nil => simp [bucketSet, bucketGet, List.find?]
  | cons p rest ih =>
    obtain ⟨p1, p2⟩ := p
    by_cases hp : k = p1
    · simp [bucketSet, hp, bucketGet, List.find?]
    · simp only [bucketSet, hp, if_false]
      simp only [bucketGet, List.find?]
      have hb : (p1 == k) = false := by simp [Ne.symm hp]
      rw [hb]
      exact ih

theorem bucketGet_bucketSet_ne {α : Type} (k k' : String) (v : List α) (hk : k' ≠ k) :
    ∀ m : List (String × List α), bucketGet (bucketSet k v m) k' = bucketGet m k' := by
  intro m
  induction m with
  | nil =>
    simp only [bucketSet, bucketGet, List.find?]
    have hb : (k == k') = false := by simp [Ne.symm hk]
    rw [hb]
  | cons p rest ih =>
    obtain ⟨p1, p2⟩ := p
    by_cases hp : k = p1
    · subst hp
      simp only [bucketSet, if_pos rfl]
      simp only [bucketGet, List.find?]
      have hb : (k == k') = false := by simp [Ne.symm hk]
      rw [hb]
    · simp only [bucketSet, hp, if_false]
      simp only [bucketGet, List.find?]
      cases hb : (p1 == k') with
      | true => rfl
      | false => exact ih

theorem mem_bucketSet {α : Type} (k : String) (v : List α) :
    ∀ (m : List (String × List α)) (p : String × List α),
      p ∈ bucketSet k v m → p = (k, v) ∨ p ∈ m := by
  intro m
  induction m with
  | nil => intro p hp; simp [bucketSet] at hp; exact Or.inl hp
  | cons q rest ih =>
    intro p hp
    obtain ⟨q1, q2⟩ := q
    by_cases hq : k = q1
    · simp only [bucketSet, hq, if_pos rfl] at hp
      rcases List.mem_cons.1 hp with hp | hp
      · subst hq; exact Or.inl hp
      · exact Or.inr (List.mem_cons_of_mem _ hp)
    · simp only [bucketSet, hq, if_false] at hp
      rcases List.mem_cons.1 hp with hp | hp
      · exact Or.inr (hp ▸ List.mem_cons_self _ _)
      · rcases ih p hp with h1 | h1
        · exact Or.inl h1
        · exact Or.inr (List.mem_cons_of_mem _ h1)


theorem keys_bucketSet_of_mem {α : Type} (k : String) (v : List α) :
    ∀ m : List (String × List α), k ∈ m.map Prod.fst →
      (bucketSet k v m).map Prod.fst = m.map Prod.fst := by
  intro m
  induction m with
  | nil => intro h; simp at h
  | cons q rest ih =>
    intro h
    obtain ⟨q1, q2⟩ := q
    by_cases hq : k = q1
    · subst hq; simp [bucketSet]
    · simp only [List.map_cons] at h
      rcases List.mem_cons.1 h with h1 | h1
      · exact absurd h1 hq
      · simp only [bucketSet, hq, if_false, List.map_cons]
        rw [ih h1]

theorem keys_bucketSet_of_not_mem {α : Type} (k : String) (v : List α) :
    ∀ m : List (String × List α), k ∉ m.map Prod.fst →
      (bucketSet k v m).map Prod.fst = m.map Prod.fst ++ [k] := by
  intro m
  induction m with
  | nil => intro _; simp [bucketSet]
  | cons q rest ih =>
    intro h
    obtain ⟨q1, q2⟩ := q
    simp only [List.map_cons, List.mem_cons, not_or] at h
    simp only [bucketSet, h.1, if_false, List.map_cons]
    rw [ih h.2, List.cons_append]

theorem keysNodup_bucketSet {α : Type} (k : String) (v : List α)
    (m : List (String × List α)) (h : (m.map Prod.fst).Nodup) :
    ((bucketSet k v m).map Prod.fst).Nodup := by
  by_cases hk : k ∈ m.map Prod.fst
  · rw [keys_bucketSet_of_mem k v m hk]; exact h
  · rw [keys_bucketSet_of_not_mem k v m hk]
    simp [List.nodup_append, h, hk]

theorem bucketGet_of_mem_keysNodup {α : Type} (k : String) (b : List α) :
    ∀ m : List (String × List α), (m.map Prod.fst).Nodup → (k, b) ∈ m →
      bucketGet m k = b := by
  intro m
  induction m with
  | nil => intro _ h; simp at h
  | cons q rest ih =>
    intro hnd hm
    obtain ⟨q1, q2⟩ := q
    simp only [List.map_cons, List.nodup_cons] at hnd
    rcases List.mem_cons.1 hm with h1 | h1
    · injection h1 with e1 e2
      subst e1
      subst e2
      simp [bucketGet, List.find?]
    · have hq : q1 ≠ k := by
        intro he
        subst he
        exact hnd.1 (List.mem_map.2 ⟨(q1, b), h1, rfl⟩)
      simp only [bucketGet, List.find?]
      have hb : (q1 == k) = false := by simp [hq]
      rw [hb]
      exact ih hnd.2 h1

theorem abstractUpdate_no_match (f : FunctionDefinition) :
    ∀ b : List FunFlag, (∀ e ∈ b, f.parameterTypes ≠ e.fn.parameterTypes) →
      abstractUpdate b f = (b ++ [⟨f, f.isImplemented⟩], []) := by
  intro b
  induction b with
  | nil => intro _; simp [abstractUpdate]
  | cons e rest ih =>
    intro h
    have he : f.parameterTypes ≠ e.fn.parameterTypes := h e (List.mem_cons_self _ _)
    simp only [abstractUpdate, he, if_false]
    rw [ih (fun x hx => h x (List.mem_cons_of_mem _ hx))]
    rfl

theorem abstractUpdate_ptypes_of_match (f : FunctionDefinition) :
    ∀ b : List FunFlag, (∃ e ∈ b, f.parameterTypes = e.fn.parameterTypes) →
      (abstractUpdate b f).1.map (fun e => e.fn.parameterTypes) =
        b.map (fun e => e.fn.parameterTypes) := by
  intro b
  induction b with
  | nil => intro h; simp at h
  | cons e rest ih =>
    intro h
    by_cases he : f.parameterTypes = e.fn.parameterTypes
    · simp only [abstractUpdate, he, if_pos rfl]
      by_cases himpl : e.implemented
      · simp [himpl]
      · simp only [himpl, Bool.false_eq_true, if_false]
        by_cases hfi : f.isImplemented
        · simp [hfi]
        · simp [hfi]
    · obtain ⟨x, hx, hxe⟩ := h
      rcases List.mem_cons.1 hx with h1 | h1
      · subst h1; exact absurd hxe he
      · simp only [abstractUpdate, he, if_false, List.map_cons]
        rw [ih ⟨x, h1, hxe⟩]

theorem abstractUpdate_mem_fn (f : FunctionDefinition) :
    ∀ b : List FunFlag, ∀ e ∈ (abstractUpdate b f).1,
      (∃ x ∈ b, e.fn = x.fn) ∨ e.fn = f := by
  intro b
  induction b with
  | nil =>
    intro e he
    simp [abstractUpdate] at he
    subst he
    exact Or.inr rfl
  | cons x rest ih =>
    intro e he
    by_cases hx : f.parameterTypes = x.fn.parameterTypes
    · simp only [abstractUpdate, hx, if_pos rfl] at he
      by_cases himpl : x.implemented
      · simp only [himpl, if_true] at he
        rcases List.mem_cons.1 he with h1 | h1
        · exact Or.inl ⟨x, List.mem_cons_self _ _, by rw [h1]⟩
        · exact Or.inl ⟨e, List.mem_cons_of_mem _ h1, rfl⟩
      · simp only [himpl, Bool.false_eq_true, if_false] at he
        by_cases hfi : f.isImplemented
        · simp only [hfi, if_true] at he
          rcases List.mem_cons.1 he with h1 | h1
          · exact Or.inl ⟨x, List.mem_cons_self _ _, by rw [h1]⟩
          · exact Or.inl ⟨e, List.mem_cons_of_mem _ h1, rfl⟩
        · simp only [hfi, Bool.false_eq_true, if_false] at he
          rcases List.mem_cons.1 he with h1 | h1
          · exact Or.inl ⟨x, List.mem_cons_self _ _, by rw [h1]⟩
          · exact Or.inl ⟨e, List.mem_cons_of_mem _ h1, rfl⟩
    · simp only [abstractUpdate, hx, if_false] at he
      rcases List.mem_cons.1 he with h1 | h1
      · exact Or.inl ⟨x, List.mem_cons_self _ _, by rw [h1]⟩
      · rcases ih e h1 with ⟨y, hy, hye⟩ | h2
        · exact Or.inl ⟨y, List.mem_cons_of_mem _ hy, hye⟩
        · exact Or.inr h2

theorem abstractUpdate_preserves_true (f : FunctionDefinition) :
    ∀ b : List FunFlag, ∀ e ∈ b, e.implemented = true → e ∈ (abstractUpdate b f).1 := by
  intro b
  induction b with
  | nil => intro e he; simp at he
  | cons x rest ih =>
    intro e he himpl
    by_cases hx : f.parameterTypes = x.fn.parameterTypes
    · simp only [abstractUpdate, hx, if_pos rfl]
      by_cases hxi : x.implemented
      · simp only [hxi, if_true]
        exact he
      · simp only [hxi, Bool.false_eq_true, if_false]
        by_cases hfi : f.isImplemented
        · simp only [hfi, if_true]
          rcases List.mem_cons.1 he with h1 | h1
          · subst h1; exact absurd himpl hxi
          · exact List.mem_cons_of_mem _ h1
        · simp only [hfi, Bool.false_eq_true, if_false]
          exact he
    · simp only [abstractUpdate, hx, if_false]
      rcases List.mem_cons.1 he with h1 | h1
      · exact h1 ▸ List.mem_cons_self _ _
      · exact List.mem_cons_of_mem _ (ih e h1 himpl)

theorem abstractUpdate_implemented_exists (f : FunctionDefinition)
    (hfi : f.isImplemented = true) :
    ∀ b : List FunFlag, ∃ e ∈ (abstractUpdate b f).1,
      e.fn.parameterTypes = f.parameterTypes ∧ e.implemented = true := by
  intro b
  induction b with
  | nil => exact ⟨⟨f, f.isImplemented⟩, by simp [abstractUpdate], rfl, hfi⟩
  | cons x rest ih =>
    by_cases hx : f.parameterTypes = x.fn.parameterTypes
    · simp only [abstractUpdate, hx, if_pos rfl]
      by_cases hxi : x.implemented
      · simp only [hxi, if_true]
        exact ⟨x, List.mem_cons_self x rest, rfl, hxi⟩
      · simp only [hxi, Bool.false_eq_true, if_false, hfi, if_true]
        exact ⟨⟨x.fn, true⟩, List.mem_cons_self ⟨x.fn, true⟩ rest, rfl, rfl⟩
    · simp only [abstractUpdate, hx, if_false]
      obtain ⟨e, he, hee⟩ := ih
      exact ⟨e, List.mem_cons_of_mem _ he, hee⟩

theorem abstractUpdate_false_flag (f : FunctionDefinition) :
    ∀ b : List FunFlag, ∀ e ∈ (abstractUpdate b f).1, e.implemented = false →
      e ∈ b ∨ (e.fn = f ∧ f.isImplemented = false) := by
  intro b
  induction b with
  | nil =>
    intro e he hflag
    simp [abstractUpdate] at he
    subst he
    exact Or.inr ⟨rfl, hflag⟩
  | cons x rest ih =>
    intro e he hflag
    by_cases hx : f.parameterTypes = x.fn.parameterTypes
    · simp only [abstractUpdate, hx, if_pos rfl] at he
      by_cases hxi : x.implemented
      · simp only [hxi, if_true] at he
        exact Or.inl he
      · simp only [hxi, Bool.false_eq_true, if_false] at he
        by_cases hfi : f.isImplemented
        · simp only [hfi, if_true] at he
          rcases List.mem_cons.1 he with h1 | h1
          · subst h1; simp at hflag
          · exact Or.inl (List.mem_cons_of_mem _ h1)
        · simp only [hfi, Bool.false_eq_true, if_false] at he
          exact Or.inl he
    · simp only [abstractUpdate, hx, if_false] at he
      rcases List.mem_cons.1 he with h1 | h1
      · exact Or.inl (h1 ▸ List.mem_cons_self _ _)
      · rcases ih e h1 hflag with h2 | h2
        · exact Or.inl (List.mem_cons_of_mem _ h2)
        · exact Or.inr h2

theorem bucketGet_name {m : List (String × List FunFlag)}
    (hname : ∀ p ∈ m, ∀ e ∈ p.2, e.fn.name = p.1) (k : String) :
    ∀ e ∈ bucketGet m k, e.fn.name = k := by
  intro e he
  by_cases hnil : bucketGet m k = []
  · rw [hnil] at he; simp at he
  · exact hname (k, bucketGet m k) (bucketGet_mem m k hnil) e he

theorem bucketGet_ptypes_nodup {m : List (String × List FunFlag)}
    (h : ∀ p ∈ m, (p.2.map (fun e => e.fn.parameterTypes)).Nodup) (k : String) :
    ((bucketGet m k).map (fun e => e.fn.parameterTypes)).Nodup := by
  by_cases hnil : bucketGet m k = []
  · rw [hnil]; simp
  · exact h (k, bucketGet m k) (bucketGet_mem m k hnil)

theorem bucketGet_flagInv {m : List (String × List FunFlag)}
    (h : ∀ p ∈ m, ∀ e ∈ p.2, e.implemented = false → e.fn.isImplemented = false)
    (k : String) :
    ∀ e ∈ bucketGet m k, e.implemented = false → e.fn.isImplemented = false := by
  intro e he
  by_cases hnil : bucketGet m k = []
  · rw [hnil] at he; simp at he
  · exact h (k, bucketGet m k) (bucketGet_mem m k hnil) e he

theorem bucketsInv_step (m : List (String × List FunFlag)) (f : FunctionDefinition)
    (h : BucketsInv m) :
    BucketsInv (bucketSet f.name (abstractUpdate (bucketGet m f.name) f).1 m) := by
  obtain ⟨hkeys, hname, hdist, hflag⟩ := h
  refine ⟨keysNodup_bucketSet _ _ _ hkeys, ?_, ?_, ?_⟩
  · intro p hp e he
    rcases mem_bucketSet _ _ m p hp with h1 | h1
    · subst h1
      rcases abstractUpdate_mem_fn f (bucketGet m f.name) e he with ⟨x, hx, hxe⟩ | h2
      · rw [hxe]
        exact bucketGet_name hname f.name x hx
      · rw [h2]
    · exact hname p h1 e he
  · intro p hp
    rcases mem_bucketSet _ _ m p hp with h1 | h1
    · subst h1
      by_cases hmatch : ∃ e ∈ bucketGet m f.name, f.parameterTypes = e.fn.parameterTypes
      · rw [abstractUpdate_ptypes_of_match f _ hmatch]
        exact bucketGet_ptypes_nodup hdist f.name
      · push_neg at hmatch
        rw [abstractUpdate_no_match f _ hmatch]
        simp only [List.map_append, List.map_cons, List.map_nil]
        rw [List.nodup_append]
        refine ⟨bucketGet_ptypes_nodup hdist f.name, by simp, ?_⟩
        intro x hx
        simp only [List.mem_singleton]
        obtain ⟨e, he, rfl⟩ := List.mem_map.1 hx
        intro hcontra
        exact hmatch e he (by rw [hcontra])
    · exact hdist p h1
  · intro p hp e he hfl
    rcases mem_bucketSet _ _ m p hp with h1 | h1
    · subst h1
      rcases abstractUpdate_false_flag f (bucketGet m f.name) e he hfl with h2 | h2
      · exact bucketGet_flagInv hflag f.name e h2 hfl
      · rw [h2.1]; exact h2.2
    · exact hflag p h1 e he hfl

theorem abstractWalk_inv :
    ∀ (fs : List FunctionDefinition) (m : List (String × List FunFlag)),
      BucketsInv m → BucketsInv (abstractWalk fs m).1 := by
  intro fs
  induction fs with
  | nil => intro m h; exact h
  | cons f rest ih =>
    intro m h
    by_cases hc : f.isCtor
    · simp only [abstractWalk, hc, if_true]
      exact ih m h
    · simp only [abstractWalk, hc, Bool.false_eq_true, if_false]
      exact ih _ (bucketsInv_step m f h)

theorem hasImpl_step (m : List (String × List FunFlag)) (f : FunctionDefinition)
    (n : String) (T : List Ty) (h : HasImpl m n T) :
    HasImpl (bucketSet f.name (abstractUpdate (bucketGet m f.name) f).1 m) n T := by
  obtain ⟨e, he, hpt, himpl⟩ := h
  by_cases hn : f.name = n
  · subst hn
    refine ⟨e, ?_, hpt, himpl⟩
    rw [bucketGet_bucketSet_self]
    exact abstractUpdate_preserves_true f _ e he himpl
  · exact ⟨e, by rw [bucketGet_bucketSet_ne _ _ _ (Ne.symm hn)]; exact he, hpt, himpl⟩

theorem hasImpl_established (m : List (String × List FunFlag)) (f : FunctionDefinition)
    (hfi : f.isImplemented = true) :
    HasImpl (bucketSet f.name (abstractUpdate (bucketGet m f.name) f).1 m)
      f.name f.parameterTypes := by
  obtain ⟨e, he, hpt, himpl⟩ := abstractUpdate_implemented_exists f hfi (bucketGet m f.name)
  refine ⟨e, ?_, hpt, himpl⟩
  rw [bucketGet_bucketSet_self]
  exact he

theorem abstractWalk_hasImpl_kept :
    ∀ (fs : List FunctionDefinition) (m : List (String × List FunFlag)) (n : String)
      (T : List Ty), HasImpl m n T → HasImpl (abstractWalk fs m).1 n T := by
  intro fs
  induction fs with
  | nil => intro m n T h; exact h
  | cons f rest ih =>
    intro m n T h
    by_cases hc : f.isCtor
    · simp only [abstractWalk, hc, if_true]
      exact ih m n T h
    · simp only [abstractWalk, hc, Bool.false_eq_true, if_false]
      exact ih _ n T (hasImpl_step m f n T h)

theorem abstractWalk_hasImpl_reached :
    ∀ (fs : List FunctionDefinition) (m : List (String × List FunFlag)) (n : String)
      (T : List Ty),
      (∃ f ∈ fs, f.isCtor = false ∧ f.name = n ∧ f.parameterTypes = T ∧
        f.isImplemented = true) →
      HasImpl (abstractWalk fs m).1 n T := by
  intro fs
  induction fs with
  | nil => intro m n T h; simp at h
  | cons f rest ih =>
    intro m n T h
    obtain ⟨x, hx, hxc, hxn, hxt, hxi⟩ := h
    rcases List.mem_cons.1 hx with h1 | h1
    · subst h1
      simp only [abstractWalk, hxc, Bool.false_eq_true, if_false]
      subst hxn
      subst hxt
      exact abstractWalk_hasImpl_kept rest _ _ _ (hasImpl_established m x hxi)
    · by_cases hc : f.isCtor
      · simp only [abstractWalk, hc, if_true]
        exact ih m n T ⟨x, h1, hxc, hxn, hxt, hxi⟩
      · simp only [abstractWalk, hc, Bool.false_eq_true, if_false]
        exact ih _ n T ⟨x, h1, hxc, hxn, hxt, hxi⟩

theorem firstUnimplemented_spec :
    ∀ (b : List FunFlag) (g : FunctionDefinition), firstUnimplemented b = some g →
      ∃ e ∈ b, e.fn = g ∧ e.implemented = false := by
  intro b
  induction b with
  | nil => intro g h; simp [firstUnimplemented] at h
  | cons e rest ih =>
    intro g h
    by_cases he : e.implemented
    · simp only [firstUnimplemented, he, if_true] at h
      obtain ⟨x, hx, hxg⟩ := ih g h
      exact ⟨x, List.mem_cons_of_mem _ hx, hxg⟩
    · simp only [firstUnimplemented, he, Bool.false_eq_true, if_false] at h
      injection h with h1
      exact ⟨e, List.mem_cons_self _ _, h1, by simpa using he⟩

theorem firstUnimplemented_isSome :
    ∀ b : List FunFlag, (∃ e ∈ b, e.implemented = false) →
      ∃ g, firstUnimplemented b = some g := by
  intro b
  induction b with
  | nil => intro h; simp at h
  | cons e rest ih =>
    intro h
    by_cases he : e.implemented
    · simp only [firstUnimplemented, he, if_true]
      obtain ⟨x, hx, hxf⟩ := h
      rcases List.mem_cons.1 hx with h1 | h1
      · subst h1; rw [hxf] at he; simp at he
      · exact ih ⟨x, h1, hxf⟩
    · exact ⟨e.fn, by simp [firstUnimplemented, he]⟩

theorem abstractUpdate_flip (f : FunctionDefinition) (e : FunFlag) (b2 : List FunFlag)
    (hpt : f.parameterTypes = e.fn.parameterTypes) (hef : e.implemented = false)
    (hfi : f.isImplemented = true) :
    ∀ b1 : List FunFlag, (∀ x ∈ b1, f.parameterTypes ≠ x.fn.parameterTypes) →
      abstractUpdate (b1 ++ e :: b2) f = (b1 ++ ⟨e.fn, true⟩ :: b2, []) := by
  intro b1
  induction b1 with
  | nil =>
    intro _
    simp [abstractUpdate, hpt, hef, hfi]
  | cons x b1' ih =>
    intro h
    have hx : f.parameterTypes ≠ x.fn.parameterTypes := h x (List.mem_cons_self _ _)
    simp only [List.cons_append, abstractUpdate, hx, if_false]
    simp only [List.append_eq]
    rw [ih (fun y hy => h y (List.mem_cons_of_mem _ hy))]

theorem pushes_names_pairwise :
    ∀ m : List (String × List FunFlag), (m.map Prod.fst).Nodup →
      (∀ p ∈ m, ∀ e ∈ p.2, e.fn.name = p.1) →
      (m.filterMap (fun b => firstUnimplemented b.2)).Pairwise
        (fun a b => a.name ≠ b.name) := by
  intro m
  induction m with
  | nil => intro _ _; simp
  | cons p rest ih =>
    intro hkeys hname
    simp only [List.map_cons, List.nodup_cons] at hkeys
    rw [List.filterMap_cons]
    cases hfu : firstUnimplemented p.2 with
    | none =>
      exact ih hkeys.2 (fun q hq => hname q (List.mem_cons_of_mem _ hq))
    | some g =>
      refine List.Pairwise.cons ?_
        (ih hkeys.2 (fun q hq => hname q (List.mem_cons_of_mem _ hq)))
      intro g' hg'
      obtain ⟨q, hq, hqsome⟩ := List.mem_filterMap.1 hg'
      obtain ⟨e, he, hefn, _⟩ := firstUnimplemented_spec p.2 g hfu
      obtain ⟨e', he', hefn', _⟩ := firstUnimplemented_spec q.2 g' hqsome
      have h1 : g.name = p.1 := by
        rw [← hefn]; exact hname p (List.mem_cons_self _ _) e he
      have h2 : g'.name = q.1 := by
        rw [← hefn']; exact hname q (List.mem_cons_of_mem _ hq) e' he'
      rw [h1, h2]
      intro hcontra
      exact hkeys.1 (hcontra ▸ List.mem_map.2 ⟨q, hq, rfl⟩)

/-- C5: when an overload-class entry exists and is not yet marked
implemented, a later function of the walk with equal parameter types and a
body flips the flag to implemented (the entry's stored declaration is kept);
consequently, whenever any contract of the linearization implements a
function of name `n` and parameter types `T` — a derived contract
implementing a function inherited abstract from a grandparent with no
override in the direct parent included — no declaration of that overload
class is recorded in `unimplementedFunctions`. -/
theorem C5_derived_override_supplies_body (lin : List ContractDefinition)
    (st : CheckState) (n : String) (T : List Ty) :
    (∀ (f : FunctionDefinition) (e : FunFlag) (b1 b2 : List FunFlag),
      (∀ x ∈ b1, f.parameterTypes ≠ x.fn.parameterTypes) →
      f.parameterTypes = e.fn.parameterTypes → e.implemented = false →
      f.isImplemented = true →
      abstractUpdate (b1 ++ e :: b2) f = (b1 ++ ⟨e.fn, true⟩ :: b2, [])) ∧
    ((∃ c ∈ lin, ∃ f ∈ c.definedFunctions, f.isCtor = false ∧ f.name = n ∧
        f.parameterTypes = T ∧ f.isImplemented = true) →
      ∀ g ∈ (checkAbstractFunctions lin st).unimplementedFunctions.drop
          st.unimplementedFunctions.length,
        ¬(g.name = n ∧ g.parameterTypes = T)) := by
  constructor
  · intro f e b1 b2 h1 h2 h3 h4
    exact abstractUpdate_flip f e b2 h2 h3 h4 b1 h1
  · intro hex g hg
    have hunimpl : (checkAbstractFunctions lin st).unimplementedFunctions =
        st.unimplementedFunctions ++
          (abstractWalk (abstractFunctionList lin) []).1.filterMap
            (fun b => firstUnimplemented b.2) := rfl
    rw [hunimpl, List.drop_left] at hg
    rintro ⟨hname, hpt⟩
    obtain ⟨p, hp, hsome⟩ := List.mem_filterMap.1 hg
    obtain ⟨e, he, hefn, heimpl⟩ := firstUnimplemented_spec p.2 g hsome
    have hinv := abstractWalk_inv (abstractFunctionList lin) []
      ⟨by simp, by simp, by simp, by simp⟩
    obtain ⟨hkeys, hnamei, hdist, _⟩ := hinv
    have hp1 : p.1 = n := by
      have := hnamei p hp e he
      rw [hefn] at this
      rw [← this, hname]
    have hflat : ∃ f ∈ abstractFunctionList lin, f.isCtor = false ∧ f.name = n ∧
        f.parameterTypes = T ∧ f.isImplemented = true := by
      obtain ⟨c, hc, f, hf, hprops⟩ := hex
      refine ⟨f, ?_, hprops⟩
      simp only [abstractFunctionList, List.mem_flatten, List.mem_map]
      exact ⟨c.definedFunctions, ⟨c, List.mem_reverse.2 hc, rfl⟩, hf⟩
    have himl := abstractWalk_hasImpl_reached (abstractFunctionList lin) [] n T hflat
    obtain ⟨e', he', hpt', himp'⟩ := himl
    have hbg : bucketGet (abstractWalk (abstractFunctionList lin) []).1 n = p.2 := by
      rw [← hp1]
      exact bucketGet_of_mem_keysNodup p.1 p.2 _ hkeys (by
        obtain ⟨a, b⟩ := p
        exact hp)
    rw [hbg] at he'
    have hed : e.fn.parameterTypes = T := by rw [hefn, hpt]
    have heq : e = e' := by
      have hinj := List.inj_on_of_nodup_map (hdist p hp)
      exact hinj he he' (by rw [hed, hpt'])
    rw [heq, himp'] at heimpl
    exact absurd heimpl (by simp)

/-- Witness for C5: the grandparent scenario — `w` declared abstract in the
grandparent, no override in the parent, implemented in the most derived
contract — leaves no `w`-class entry unimplemented, and the flag flip fires
on the concrete bucket. -/
theorem C5_derived_override_supplies_body_witness :
    (abstractUpdate ([] ++ (⟨fC5a, false⟩ : FunFlag) :: []) fC5c =
      ([] ++ (⟨fC5a, true⟩ : FunFlag) :: [], []) ∧
      (∃ c ∈ linC5, ∃ f ∈ c.definedFunctions, f.isCtor = false ∧ f.name = "w" ∧
        f.parameterTypes = [3] ∧ f.isImplemented = true)) ∧
      ∀ g ∈ (checkAbstractFunctions linC5 emptyState).unimplementedFunctions.drop
          emptyState.unimplementedFunctions.length,
        ¬(g.name = "w" ∧ g.parameterTypes = [3]) :=
  ⟨⟨(C5_derived_override_supplies_body linC5 emptyState "w" [3]).1 fC5c ⟨fC5a, false⟩ [] []
      (by simp) rfl rfl rfl,
    ⟨cC5c, by decide, fC5c, by decide, rfl, rfl, rfl, rfl⟩⟩,
   (C5_derived_override_supplies_body linC5 emptyState "w" [3]).2
     ⟨cC5c, by decide, fC5c, by decide, rfl, rfl, rfl, rfl⟩⟩

/-- C1 (amended): after the base-to-derived walk, the recorded unimplemented
entries are exactly one representative per *name* still owning an
unimplemented overload class — the representative of the first unimplemented
class of that name (the recording loop breaks after it): the recorded names
are pairwise distinct, every recorded declaration is bodyless, and every name
bucket containing an unimplemented class contributes an entry; a second
unimplemented class of the same name is not additionally recorded. -/
theorem C1_first_unimplemented_per_name_recorded (lin : List ContractDefinition)
    (st : CheckState) :
    ((checkAbstractFunctions lin st).unimplementedFunctions =
      st.unimplementedFunctions ++
        (abstractWalk (abstractFunctionList lin) []).1.filterMap
          (fun b => firstUnimplemented b.2)) ∧
    ((abstractWalk (abstractFunctionList lin) []).1.filterMap
        (fun b => firstUnimplemented b.2)).Pairwise (fun a b => a.name ≠ b.name) ∧
    (∀ g ∈ (abstractWalk (abstractFunctionList lin) []).1.filterMap
        (fun b => firstUnimplemented b.2), g.isImplemented = false) ∧
    (∀ p ∈ (abstractWalk (abstractFunctionList lin) []).1,
      (∃ e ∈ p.2, e.implemented = false) →
      ∃ g ∈ (abstractWalk (abstractFunctionList lin) []).1.filterMap
        (fun b => firstUnimplemented b.2), g.name = p.1) := by
  obtain ⟨hkeys, hname, hdist, hflag⟩ := abstractWalk_inv (abstractFunctionList lin) []
    ⟨by simp, by simp, by simp, by simp⟩
  refine ⟨rfl, pushes_names_pairwise _ hkeys hname, ?_, ?_⟩
  · intro g hg
    obtain ⟨p, hp, hsome⟩ := List.mem_filterMap.1 hg
    obtain ⟨e, he, hefn, heimpl⟩ := firstUnimplemented_spec p.2 g hsome
    rw [← hefn]
    exact hflag p hp e he heimpl
  · intro p hp hex
    obtain ⟨g, hsome⟩ := firstUnimplemented_isSome p.2 hex
    refine ⟨g, List.mem_filterMap.2 ⟨p, hp, hsome⟩, ?_⟩
    obtain ⟨e, he, hefn, _⟩ := firstUnimplemented_spec p.2 g hsome
    rw [← hefn]
    exact hname p hp e he

/-- Witness for the amended C1: the two-abstract-overloads contract gets
exactly the walk's pushes appended, and its name `f` (which owns an
unimplemented class) contributes an entry. -/
theorem C1_first_unimplemented_per_name_recorded_witness :
    ((checkAbstractFunctions [cC1] emptyState).unimplementedFunctions =
      emptyState.unimplementedFunctions ++
        (abstractWalk (abstractFunctionList [cC1]) []).1.filterMap
          (fun b => firstUnimplemented b.2)) ∧
      ∃ g ∈ (abstractWalk (abstractFunctionList [cC1]) []).1.filterMap
        (fun b => firstUnimplemented b.2), g.name = ("f", [(⟨u1C1, false⟩ : FunFlag),
          ⟨u2C1, false⟩]).1 :=
  ⟨(C1_first_unimplemented_per_name_recorded [cC1] emptyState).1,
   (C1_first_unimplemented_per_name_recorded [cC1] emptyState).2.2.2
     ("f", [⟨u1C1, false⟩, ⟨u2C1, false⟩]) (by decide)
     ⟨⟨u1C1, false⟩, by decide, rfl⟩⟩

theorem lookupSuper_eq_lookupKey (m : List (Nat × Nat)) (k : Nat) :
    lookupSuper m k = lookupKey m k := rfl

theorem lookupArg_eq_lookupKey (m : List (Nat × ArgNode)) (k : Nat) :
    lookupArg m k = lookupKey m k := rfl

theorem lookupKey_append_left {α : Type} (k : Nat) (x : α) (m' : List (Nat × α)) :
    ∀ m : List (Nat × α), lookupKey m k = some x → lookupKey (m ++ m') k = some x := by
  intro m
  induction m with
  | nil => intro h; simp [lookupKey] at h
  | cons p rest ih =>
    intro h
    simp only [lookupKey, List.find?] at h ⊢
    cases hb : (p.1 == k) with
    | true => rw [hb] at h; simpa using h
    | false =>
      rw [hb] at h
      simp only [List.cons_append, List.find?, hb]
      exact ih h

theorem lookupKey_append_self_of_none {α : Type} (k : Nat) (v : α) :
    ∀ m : List (Nat × α), lookupKey m k = none → lookupKey (m ++ [(k, v)]) k = some v := by
  intro m
  induction m with
  | nil => simp [lookupKey, List.find?]
  | cons p rest ih =>
    intro h
    simp only [lookupKey, List.find?] at h ⊢
    cases hb : (p.1 == k) with
    | true => rw [hb] at h; simp at h
    | false =>
      rw [hb] at h
      simp only [List.cons_append, List.find?, hb]
      exact ih h

theorem lookupKey_isSome_append {α : Type} (k : Nat) (m m' : List (Nat × α))
    (h : (lookupKey m k).isSome = true) : (lookupKey (m ++ m') k).isSome = true := by
  cases hx : lookupKey m k with
  | none => rw [hx] at h; simp at h
  | some x => rw [lookupKey_append_left k x m' m hx]; rfl

theorem guardedInserts_append {α : Type} :
    ∀ (l1 l2 : List (Bool × Nat × α)) (m : List (Nat × α)),
      guardedInserts m (l1 ++ l2) = guardedInserts (guardedInserts m l1) l2 := by
  intro l1
  induction l1 with
  | nil => intro l2 m; rfl
  | cons x rest ih =>
    intro l2 m
    obtain ⟨g, k, v⟩ := x
    simp only [List.cons_append, guardedInserts]
    exact ih l2 _

theorem guardedInserts_isSome_mono {α : Type} (k : Nat) :
    ∀ (l : List (Bool × Nat × α)) (m : List (Nat × α)),
      (lookupKey m k).isSome = true → (lookupKey (guardedInserts m l) k).isSome = true := by
  intro l
  induction l with
  | nil => intro m h; exact h
  | cons x rest ih =>
    intro m h
    obtain ⟨g, k', v⟩ := x
    simp only [guardedInserts]
    apply ih
    split
    · exact lookupKey_isSome_append k m _ h
    · exact h

theorem guardedInserts_covers {α : Type} :
    ∀ (l : List (Bool × Nat × α)) (m : List (Nat × α)) (k : Nat) (v : α),
      (true, k, v) ∈ l → (lookupKey (guardedInserts m l) k).isSome = true := by
  intro l
  induction l with
  | nil => intro m k v h; simp at h
  | cons x rest ih =>
    intro m k v h
    obtain ⟨g, k', v'⟩ := x
    rcases List.mem_cons.1 h with h1 | h1
    · injection h1 with hg hkv
      injection hkv with hk hv
      subst hg; subst hk
      simp only [guardedInserts]
      apply guardedInserts_isSome_mono
      cases hl : lookupKey m k with
      | some y =>
        rw [if_neg (by simp)]
        rw [hl]
        rfl
      | none =>
        show (lookupKey (m ++ [(k, v')]) k).isSome = true
        rw [lookupKey_append_self_of_none k v' m hl]
        rfl
    · simp only [guardedInserts]
      exact ih _ k v h1

theorem guardedInserts_no_op {α : Type} :
    ∀ (l : List (Bool × Nat × α)) (m : List (Nat × α)),
      (∀ x ∈ l, x.1 = true → (lookupKey m x.2.1).isSome = true) →
      guardedInserts m l = m := by
  intro l
  induction l with
  | nil => intro m _; rfl
  | cons x rest ih =>
    intro m h
    obtain ⟨g, k, v⟩ := x
    simp only [guardedInserts]
    have hstep : (if g && (lookupKey m k).isNone then m ++ [(k, v)] else m) = m := by
      cases g with
      | false => simp
      | true =>
        have hs : (lookupKey m k).isSome = true :=
          h (true, k, v) (List.mem_cons_self _ _) rfl
        cases hl : lookupKey m k with
        | none => rw [hl] at hs; simp at hs
        | some y => rw [if_neg (by simp)]
    rw [hstep]
    exact ih m (fun x hx => h x (List.mem_cons_of_mem _ hx))

theorem guardedInserts_idem {α : Type} (m : List (Nat × α)) (l : List (Bool × Nat × α)) :
    guardedInserts (guardedInserts m l) l = guardedInserts m l := by
  apply guardedInserts_no_op
  intro x hx hg
  obtain ⟨g, k, v⟩ := x
  subst hg
  exact guardedInserts_covers l m k v hx

theorem checkFunctionOverride_superMap (g f : FunctionDefinition) (m : List (Nat × Nat)) :
    (checkFunctionOverride g f m).2 =
      if decide (g.parameterTypes = f.parameterTypes) && (lookupKey m g.fnId).isNone then
        m ++ [(g.fnId, f.fnId)]
      else m := by
  by_cases hp : g.parameterTypes = f.parameterTypes
  · by_cases hl : (lookupKey m g.fnId).isNone
    · simp [checkFunctionOverride, hp, lookupSuper_eq_lookupKey, hl]
    · simp [checkFunctionOverride, hp, lookupSuper_eq_lookupKey, hl]
  · simp [checkFunctionOverride, hp]

theorem foldOverrides_superMap :
    ∀ (bucket : List FunctionDefinition) (f : FunctionDefinition) (m : List (Nat × Nat)),
      (foldOverrides bucket f m).2 = guardedInserts m (overridePairsOfBucket bucket f) := by
  intro bucket
  induction bucket with
  | nil => intro f m; rfl
  | cons g rest ih =>
    intro f m
    simp only [foldOverrides, overridePairsOfBucket, List.map_cons, guardedInserts]
    rw [← overridePairsOfBucket]
    rw [ih]
    congr 1
    exact checkFunctionOverride_superMap g f m

theorem overrideFnStep_facts (ctx : OverrideCtx) (f : FunctionDefinition) :
    (overrideFnStep ctx f).superMap =
        (if f.isCtor then ctx.superMap
         else guardedInserts ctx.superMap
           (overridePairsOfBucket (bucketGet ctx.functions f.name) f)) ∧
      (overrideFnStep ctx f).functions =
        (if f.isCtor then ctx.functions else mapInsert f.name f ctx.functions) ∧
      (overrideFnStep ctx f).modifiers = ctx.modifiers := by
  by_cases hc : f.isCtor
  · simp [overrideFnStep, hc]
  · refine ⟨?_, ?_, ?_⟩
    · simp only [overrideFnStep, hc, Bool.false_eq_true, if_false]
      exact foldOverrides_superMap _ f ctx.superMap
    · simp [overrideFnStep, hc]
    · simp [overrideFnStep, hc]

theorem fnsFold_facts :
    ∀ (fs : List FunctionDefinition) (ctx : OverrideCtx),
      (fs.foldl overrideFnStep ctx).superMap =
          guardedInserts ctx.superMap (overridePairsFns fs ctx.functions).1 ∧
        (fs.foldl overrideFnStep ctx).functions = (overridePairsFns fs ctx.functions).2 ∧
        (fs.foldl overrideFnStep ctx).modifiers = ctx.modifiers := by
  intro fs
  induction fs with
  | nil => intro ctx; exact ⟨rfl, rfl, rfl⟩
  | cons f rest ih =>
    intro ctx
    simp only [List.foldl_cons]
    obtain ⟨hs, hf, hm⟩ := overrideFnStep_facts ctx f
    obtain ⟨ihs, ihf, ihm⟩ := ih (overrideFnStep ctx f)
    by_cases hc : f.isCtor
    · rw [hc] at hs hf
      simp only [if_true] at hs hf
      simp only [overridePairsFns, hc, if_true]
      exact ⟨by rw [ihs, hs, hf], by rw [ihf, hf], by rw [ihm, hm]⟩
    · simp only [hc, Bool.false_eq_true, if_false] at hs hf
      simp only [overridePairsFns, hc, Bool.false_eq_true, if_false]
      refine ⟨?_, ?_, by rw [ihm, hm]⟩
      · rw [ihs, hs, hf, ← guardedInserts_append]
      · rw [ihf, hf]

theorem overrideModStep_facts (ctx : OverrideCtx) (md : ModifierDefinition) :
    (overrideModStep ctx md).superMap = ctx.superMap ∧
      (overrideModStep ctx md).functions = ctx.functions := by
  unfold overrideModStep
  exact ⟨rfl, rfl⟩

theorem modsFold_facts :
    ∀ (ms : List ModifierDefinition) (ctx : OverrideCtx),
      (ms.foldl overrideModStep ctx).superMap = ctx.superMap ∧
        (ms.foldl overrideModStep ctx).functions = ctx.functions := by
  intro ms
  induction ms with
  | nil => intro ctx; exact ⟨rfl, rfl⟩
  | cons md rest ih =>
    intro ctx
    simp only [List.foldl_cons]
    obtain ⟨ihs, ihf⟩ := ih (overrideModStep ctx md)
    obtain ⟨hs, hf⟩ := overrideModStep_facts ctx md
    exact ⟨by rw [ihs, hs], by rw [ihf, hf]⟩

theorem contractsFold_superMap :
    ∀ (lin : List ContractDefinition) (ctx : OverrideCtx),
      (lin.foldl overrideContractStep ctx).superMap =
        guardedInserts ctx.superMap (overridePairsContracts lin ctx.functions) := by
  intro lin
  induction lin with
  | nil => intro ctx; rfl
  | cons c rest ih =>
    intro ctx
    simp only [List.foldl_cons]
    have hstep : overrideContractStep ctx c =
        c.functionModifiers.foldl overrideModStep (c.definedFunctions.foldl overrideFnStep ctx) :=
      rfl
    obtain ⟨hfs, hff, _⟩ := fnsFold_facts c.definedFunctions ctx
    obtain ⟨hms, hmf⟩ := modsFold_facts c.functionModifiers
      (c.definedFunctions.foldl overrideFnStep ctx)
    rw [ih (overrideContractStep ctx c)]
    simp only [overridePairsContracts]
    rw [hstep, hms, hmf, hfs, hff, ← guardedInserts_append]

theorem checkIllegalOverrides_superFunction (lin : List ContractDefinition) (st : CheckState) :
    (checkIllegalOverrides lin st).superFunction =
      guardedInserts st.superFunction (overridePairList lin) := by
  unfold checkIllegalOverrides overrideWalk overridePairList
  exact contractsFold_superMap lin ⟨[], [], st.superFunction, []⟩

theorem annotate_facts (cc : ContractDefinition) (k : FunctionDefinition) (n : ArgNode)
    (st : CheckState) :
    (annotateBaseConstructorArguments cc k n st).baseConstructorArguments =
        (if (lookupKey st.baseConstructorArguments k.fnId).isNone then
          st.baseConstructorArguments ++ [(k.fnId, n)]
        else st.baseConstructorArguments) ∧
      (annotateBaseConstructorArguments cc k n st).superFunction = st.superFunction ∧
      (annotateBaseConstructorArguments cc k n st).unimplementedFunctions =
        st.unimplementedFunctions := by
  unfold annotateBaseConstructorArguments
  cases hl : lookupArg st.baseConstructorArguments k.fnId with
  | none =>
    rw [lookupArg_eq_lookupKey] at hl
    simp [hl]
  | some prev =>
    rw [lookupArg_eq_lookupKey] at hl
    simp [hl]

theorem baseArgModifierStep_facts (env : List ContractDefinition) (cc : ContractDefinition)
    (st : CheckState) (mi : ModifierInvocation) :
    (baseArgModifierStep env cc st mi).baseConstructorArguments =
        guardedInserts st.baseConstructorArguments (baseArgSiteOfModifier env mi) ∧
      (baseArgModifierStep env cc st mi).superFunction = st.superFunction ∧
      (baseArgModifierStep env cc st mi).unimplementedFunctions =
        st.unimplementedFunctions := by
  unfold baseArgModifierStep baseArgSiteOfModifier
  split
  · split
    · split
      · rename_i ctor _
        obtain ⟨h1, h2, h3⟩ := annotate_facts cc ctor ⟨mi.nodeId, mi.location⟩ st
        refine ⟨?_, h2, h3⟩
        rw [h1]
        simp only [guardedInserts, Bool.true_and]
      · exact ⟨rfl, rfl, rfl⟩
    · exact ⟨rfl, rfl, rfl⟩
  · exact ⟨rfl, rfl, rfl⟩

theorem baseArgSpecifierStep_facts (env : List ContractDefinition) (cc : ContractDefinition)
    (st : CheckState) (b : InheritanceSpecifier) :
    (baseArgSpecifierStep env cc st b).baseConstructorArguments =
        guardedInserts st.baseConstructorArguments (baseArgSiteOfSpecifier env b) ∧
      (baseArgSpecifierStep env cc st b).superFunction = st.superFunction ∧
      (baseArgSpecifierStep env cc st b).unimplementedFunctions =
        st.unimplementedFunctions := by
  unfold baseArgSpecifierStep baseArgSiteOfSpecifier
  split
  · split
    · rename_i ctor heq
      split
      · obtain ⟨h1, h2, h3⟩ := annotate_facts cc ctor ⟨b.nodeId, b.location⟩ st
        refine ⟨?_, h2, h3⟩
        rw [h1]
        simp only [guardedInserts, Bool.true_and]
      · exact ⟨rfl, rfl, rfl⟩
    · exact ⟨rfl, rfl, rfl⟩
  · exact ⟨rfl, rfl, rfl⟩

theorem modifierFold_facts (env : List ContractDefinition) (cc : ContractDefinition) :
    ∀ (ms : List ModifierInvocation) (st : CheckState),
      ((ms.foldl (baseArgModifierStep env cc) st).baseConstructorArguments =
        guardedInserts st.baseConstructorArguments
          ((ms.map (baseArgSiteOfModifier env)).flatten)) ∧
      (ms.foldl (baseArgModifierStep env cc) st).superFunction = st.superFunction ∧
      (ms.foldl (baseArgModifierStep env cc) st).unimplementedFunctions =
        st.unimplementedFunctions := by
  intro ms
  induction ms with
  | nil => intro st; exact ⟨rfl, rfl, rfl⟩
  | cons mi rest ih =>
    intro st
    simp only [List.foldl_cons, List.map_cons, List.flatten_cons]
    obtain ⟨h1, h2, h3⟩ := baseArgModifierStep_facts env cc st mi
    obtain ⟨i1, i2, i3⟩ := ih (baseArgModifierStep env cc st mi)
    refine ⟨?_, by rw [i2, h2], by rw [i3, h3]⟩
    rw [i1, h1, guardedInserts_append]

theorem specifierFold_facts (env : List ContractDefinition) (cc : ContractDefinition) :
    ∀ (bs : List InheritanceSpecifier) (st : CheckState),
      ((bs.foldl (baseArgSpecifierStep env cc) st).baseConstructorArguments =
        guardedInserts st.baseConstructorArguments
          ((bs.map (baseArgSiteOfSpecifier env)).flatten)) ∧
      (bs.foldl (baseArgSpecifierStep env cc) st).superFunction = st.superFunction ∧
      (bs.foldl (baseArgSpecifierStep env cc) st).unimplementedFunctions =
        st.unimplementedFunctions := by
  intro bs
  induction bs with
  | nil => intro st; exact ⟨rfl, rfl, rfl⟩
  | cons b rest ih =>
    intro st
    simp only [List.foldl_cons, List.map_cons, List.flatten_cons]
    obtain ⟨h1, h2, h3⟩ := baseArgSpecifierStep_facts env cc st b
    obtain ⟨i1, i2, i3⟩ := ih (baseArgSpecifierStep env cc st b)
    refine ⟨?_, by rw [i2, h2], by rw [i3, h3]⟩
    rw [i1, h1, guardedInserts_append]

theorem baseArgContractStep_facts (env : List ContractDefinition) (cc : ContractDefinition)
    (st : CheckState) (c : ContractDefinition) :
    ((baseArgContractStep env cc st c).baseConstructorArguments =
        guardedInserts st.baseConstructorArguments (baseArgSitesOfContract env c)) ∧
      (baseArgContractStep env cc st c).superFunction = st.superFunction ∧
      (baseArgContractStep env cc st c).unimplementedFunctions =
        st.unimplementedFunctions := by
  unfold baseArgContractStep baseArgSitesOfContract
  cases hk : c.constructor with
  | none =>
    obtain ⟨h1, h2, h3⟩ := specifierFold_facts env cc c.baseContracts st
    refine ⟨?_, h2, h3⟩
    rw [h1]
    simp [guardedInserts_append]
  | some ctor =>
    obtain ⟨h1, h2, h3⟩ := modifierFold_facts env cc ctor.modifierInvocations st
    obtain ⟨i1, i2, i3⟩ := specifierFold_facts env cc c.baseContracts
      (ctor.modifierInvocations.foldl (baseArgModifierStep env cc) st)
    refine ⟨?_, by rw [i2, h2], by rw [i3, h3]⟩
    rw [i1, h1, guardedInserts_append]

theorem passOneFold_facts (env : List ContractDefinition) (cc : ContractDefinition) :
    ∀ (lin : List ContractDefinition) (st : CheckState),
      ((lin.foldl (baseArgContractStep env cc) st).baseConstructorArguments =
        guardedInserts st.baseConstructorArguments (baseArgSites env lin)) ∧
      (lin.foldl (baseArgContractStep env cc) st).superFunction = st.superFunction ∧
      (lin.foldl (baseArgContractStep env cc) st).unimplementedFunctions =
        st.unimplementedFunctions := by
  intro lin
  induction lin with
  | nil => intro st; exact ⟨rfl, rfl, rfl⟩
  | cons c rest ih =>
    intro st
    simp only [List.foldl_cons, baseArgSites, List.map_cons, List.flatten_cons]
    obtain ⟨h1, h2, h3⟩ := baseArgContractStep_facts env cc st c
    obtain ⟨i1, i2, i3⟩ := ih (baseArgContractStep env cc st c)
    refine ⟨?_, by rw [i2, h2], by rw [i3, h3]⟩
    simp only [baseArgSites] at i1
    rw [i1, h1, guardedInserts_append]

theorem passTwoFold_facts (cc : ContractDefinition) :
    ∀ (lin : List ContractDefinition) (st : CheckState),
      ((lin.foldl (baseArgCompletenessStep cc) st).baseConstructorArguments =
        st.baseConstructorArguments) ∧
      (lin.foldl (baseArgCompletenessStep cc) st).superFunction = st.superFunction ∧
      (lin.foldl (baseArgCompletenessStep cc) st).unimplementedFunctions =
        st.unimplementedFunctions ++ pass2Pushes cc lin st.baseConstructorArguments := by
  intro lin
  induction lin with
  | nil => intro st; exact ⟨rfl, rfl, by simp [pass2Pushes]⟩
  | cons c rest ih =>
    intro st
    simp only [List.foldl_cons]
    have hstep : (baseArgCompletenessStep cc st c).baseConstructorArguments =
          st.baseConstructorArguments ∧
        (baseArgCompletenessStep cc st c).superFunction = st.superFunction ∧
        (baseArgCompletenessStep cc st c).errors = st.errors ∧
        (baseArgCompletenessStep cc st c).unimplementedFunctions =
          st.unimplementedFunctions ++
            (match c.constructor with
             | some ctor =>
               if c.contractId ≠ cc.contractId ∧ ctor.parameterTypes ≠ [] then
                 (if (lookupArg st.baseConstructorArguments ctor.fnId).isNone then [ctor]
                  else [])
               else []
             | none => []) := by
      unfold baseArgCompletenessStep
      split
      · split
        · split
          · exact ⟨rfl, rfl, rfl, rfl⟩
          · exact ⟨rfl, rfl, rfl, by simp⟩
        · exact ⟨rfl, rfl, rfl, by simp⟩
      · exact ⟨rfl, rfl, rfl, by simp⟩
    obtain ⟨h1, h2, h3, h4⟩ := hstep
    obtain ⟨i1, i2, i3⟩ := ih (baseArgCompletenessStep cc st c)
    refine ⟨by rw [i1, h1], by rw [i2, h2], ?_⟩
    rw [i3, h4, h1]
    simp only [pass2Pushes, List.filterMap_cons]
    cases hk : c.constructor with
    | none => simp
    | some ctor =>
      by_cases hcond : c.contractId ≠ cc.contractId ∧ ctor.parameterTypes ≠ []
      · by_cases hlook : (lookupArg st.baseConstructorArguments ctor.fnId).isNone
        · simp [hcond, hlook, List.append_assoc]
        · simp [hcond, hlook, List.append_assoc]
      · simp [hcond, List.append_assoc]

theorem checkBaseConstructorArguments_facts (env : List ContractDefinition)
    (cc : ContractDefinition) (lin : List ContractDefinition) (st : CheckState) :
    ((checkBaseConstructorArguments env cc lin st).baseConstructorArguments =
        guardedInserts st.baseConstructorArguments (baseArgSites env lin)) ∧
      (checkBaseConstructorArguments env cc lin st).superFunction = st.superFunction ∧
      (checkBaseConstructorArguments env cc lin st).unimplementedFunctions =
        st.unimplementedFunctions ++
          pass2Pushes cc lin
            (guardedInserts st.baseConstructorArguments (baseArgSites env lin)) := by
  unfold checkBaseConstructorArguments
  obtain ⟨h1, h2, h3⟩ := passOneFold_facts env cc lin st
  obtain ⟨i1, i2, i3⟩ := passTwoFold_facts cc lin (lin.foldl (baseArgContractStep env cc) st)
  exact ⟨by rw [i1, h1], by rw [i2, h2], by rw [i3, h3, h1]⟩

theorem check_superFunction (env : List ContractDefinition) (c : ContractDefinition)
    (lin : List ContractDefinition) (st : CheckState) :
    (check env c lin st).superFunction =
      guardedInserts st.superFunction (overridePairList lin) := by
  unfold check
  have h0 : (checkDuplicateEvents c (checkDuplicateFunctions c st)).superFunction =
      st.superFunction := rfl
  have h1 := checkIllegalOverrides_superFunction lin
    (checkDuplicateEvents c (checkDuplicateFunctions c st))
  rw [h0] at h1
  have h2 : (checkAbstractFunctions lin
      (checkIllegalOverrides lin (checkDuplicateEvents c (checkDuplicateFunctions c st)))).superFunction =
      (checkIllegalOverrides lin (checkDuplicateEvents c (checkDuplicateFunctions c st))).superFunction := rfl
  obtain ⟨_, h3, _⟩ := checkBaseConstructorArguments_facts env c lin
    (checkAbstractFunctions lin
      (checkIllegalOverrides lin (checkDuplicateEvents c (checkDuplicateFunctions c st))))
  have h4 : ∀ s : CheckState, (checkConstructor c s).superFunction = s.superFunction := by
    intro s
    unfold checkConstructor
    cases c.constructor <;> rfl
  rw [h4, h3, h2, h1]

theorem check_base (env : List ContractDefinition) (c : ContractDefinition)
    (lin : List ContractDefinition) (st : CheckState) :
    (check env c lin st).baseConstructorArguments =
      guardedInserts st.baseConstructorArguments (baseArgSites env lin) := by
  unfold check
  have h0 : (checkAbstractFunctions lin
      (checkIllegalOverrides lin
        (checkDuplicateEvents c (checkDuplicateFunctions c st)))).baseConstructorArguments =
      st.baseConstructorArguments := rfl
  obtain ⟨h1, _, _⟩ := checkBaseConstructorArguments_facts env c lin
    (checkAbstractFunctions lin
      (checkIllegalOverrides lin (checkDuplicateEvents c (checkDuplicateFunctions c st))))
  have h2 : ∀ s : CheckState, (checkConstructor c s).baseConstructorArguments =
      s.baseConstructorArguments := by
    intro s
    unfold checkConstructor
    cases c.constructor <;> rfl
  rw [h2, h1, h0]

theorem check_unimplemented (env : List ContractDefinition) (c : ContractDefinition)
    (lin : List ContractDefinition) (st : CheckState) :
    (check env c lin st).unimplementedFunctions =
      st.unimplementedFunctions ++
        (abstractPushes lin ++
          pass2Pushes c lin
            (guardedInserts st.baseConstructorArguments (baseArgSites env lin))) := by
  unfold check
  have h0 : (checkIllegalOverrides lin
      (checkDuplicateEvents c (checkDuplicateFunctions c st))).unimplementedFunctions =
      st.unimplementedFunctions := rfl
  have h1 : (checkAbstractFunctions lin
      (checkIllegalOverrides lin
        (checkDuplicateEvents c (checkDuplicateFunctions c st)))).unimplementedFunctions =
      st.unimplementedFunctions ++ abstractPushes lin := by
    show st.unimplementedFunctions ++ _ = _
    rw [abstractPushes]
  have hbase : (checkAbstractFunctions lin
      (checkIllegalOverrides lin
        (checkDuplicateEvents c (checkDuplicateFunctions c st)))).baseConstructorArguments =
      st.baseConstructorArguments := rfl
  obtain ⟨_, _, h2⟩ := checkBaseConstructorArguments_facts env c lin
    (checkAbstractFunctions lin
      (checkIllegalOverrides lin (checkDuplicateEvents c (checkDuplicateFunctions c st))))
  have h3 : ∀ s : CheckState, (checkConstructor c s).unimplementedFunctions =
      s.unimplementedFunctions := by
    intro s
    unfold checkConstructor
    cases c.constructor <;> rfl
  rw [h3, h2, h1, hbase, List.append_assoc]

/-- C9 (amended): running the full check twice over the same unchanged AST
does not reproduce the result of one run — annotation writes accumulate.  The
second run leaves the `superFunction` back-references and the
`baseConstructorArguments` map exactly as the first run left them (the
guarded first-write-wins insertions are idempotent), but appends the same
unimplemented-function entries a second time, so the unimplemented list
doubles instead of staying identical. -/
theorem C9_rerun_accumulates (env : List ContractDefinition) (c : ContractDefinition)
    (lin : List ContractDefinition) (st : CheckState) :
    (check env c lin (check env c lin st)).superFunction =
        (check env c lin st).superFunction ∧
      (check env c lin (check env c lin st)).baseConstructorArguments =
        (check env c lin st).baseConstructorArguments ∧
      (check env c lin (check env c lin st)).unimplementedFunctions =
        (check env c lin st).unimplementedFunctions ++
          ((check env c lin st).unimplementedFunctions.drop
            st.unimplementedFunctions.length) := by
  refine ⟨?_, ?_, ?_⟩
  · rw [check_superFunction env c lin (check env c lin st),
      check_superFunction env c lin st, guardedInserts_idem]
  · rw [check_base env c lin (check env c lin st), check_base env c lin st,
      guardedInserts_idem]
  · rw [check_unimplemented env c lin (check env c lin st),
      check_unimplemented env c lin st, check_base env c lin st, guardedInserts_idem,
      List.drop_left]
